import Mathlib

set_option maxHeartbeats 1000000

namespace JsonDeepDive

/-! Shallow embedding of the json-deep-dive viewer.

Sources embedded here:
  * src/utils/jsonUtils.ts   (getDataType, safeJsonParse)
  * src/unnamed/part_001     (the JsonValue / DataType type declarations)
  * src/unnamed/part_000     (App: tabs, parse effect, clipboard paste handler)
  * src/components/JsonViewer.tsx (viewer state machine, expand/collapse signals)
  * src/components/JsonNode.tsx   (tree node renderer, local expanded state)

JavaScript's JSON.parse / JSON.stringify are modelled by an executable
recursive-descent parser and serializer over the JsonValue tree.  Numbers are
modelled as integers: the source stores JavaScript doubles, but no claim
depends on non-integer numerics, and floating point is outside the model. -/

/-- The JSON value tree (src/unnamed/part_001: JsonValue).  Objects keep their
members as an ordered association list, matching JavaScript key-encounter
order; arrays are ordered lists. -/
inductive JsonValue where
  | str (s : String)
  | num (n : Int)
  | bool (b : Bool)
  | null
  | obj (members : List (String × JsonValue))
  | arr (items : List JsonValue)
deriving Repr, Inhabited

/-- The classifier codomain (src/unnamed/part_001: DataType). -/
inductive DataType where
  | STRING
  | NUMBER
  | BOOLEAN
  | NULL
  | OBJECT
  | ARRAY
  | UNKNOWN
deriving Repr, DecidableEq

/-- getDataType from src/utils/jsonUtils.ts.  The source tests, in order:
null, Array.isArray, typeof object, string, number, boolean; on the JsonValue
sum type those tests collapse to this match.  UNKNOWN is unreachable for a
value produced by the parser. -/
def getDataType : JsonValue → DataType
  | .null => .NULL
  | .arr _ => .ARRAY
  | .obj _ => .OBJECT
  | .str _ => .STRING
  | .num _ => .NUMBER
  | .bool _ => .BOOLEAN

/-! JSON.parse model: a total recursive-descent parser over the character
list, with a fuel bound on value nesting.  The top-level call supplies fuel
strictly larger than the input length, which every real parse needs at most
(each recursive call consumes at least one character first). -/

/-- JSON interelement whitespace (RFC 8259): space, tab, line feed, carriage
return. -/
def isJsonWs (c : Char) : Bool :=
  c = ' ' || c = '\t' || c = '\n' || c = '\r'

/-- Drop leading JSON whitespace. -/
def skipWs (cs : List Char) : List Char :=
  cs.dropWhile isJsonWs

/-- Value of one hexadecimal digit, if any. -/
def hexVal (c : Char) : Option Nat :=
  if '0' ≤ c ∧ c ≤ '9' then some (c.toNat - 48)
  else if 'a' ≤ c ∧ c ≤ 'f' then some (c.toNat - 87)
  else if 'A' ≤ c ∧ c ≤ 'F' then some (c.toNat - 55)
  else none

/-- Parse the body of a JSON string after the opening quote, accumulating
decoded characters in reverse.  Handles the escapes JSON.parse accepts. -/
def parseStringBody (cs : List Char) (acc : List Char) :
    Except String (String × List Char) :=
  match cs with
  | [] => .error "Unexpected end of JSON input"
  | c :: cs1 =>
    if c = '"' then .ok (String.mk acc.reverse, cs1)
    else if c = '\\' then
      match cs1 with
      | [] => .error "Unexpected end of JSON input"
      | e :: r =>
        if e = '"' then parseStringBody r ('"' :: acc)
        else if e = '\\' then parseStringBody r ('\\' :: acc)
        else if e = '/' then parseStringBody r ('/' :: acc)
        else if e = 'b' then parseStringBody r ('\x08' :: acc)
        else if e = 'f' then parseStringBody r ('\x0c' :: acc)
        else if e = 'n' then parseStringBody r ('\n' :: acc)
        else if e = 'r' then parseStringBody r ('\r' :: acc)
        else if e = 't' then parseStringBody r ('\t' :: acc)
        else if e = 'u' then
          match r with
          | h1 :: h2 :: h3 :: h4 :: r2 =>
            match hexVal h1, hexVal h2, hexVal h3, hexVal h4 with
            | some a, some b, some c2, some d =>
              parseStringBody r2
                (Char.ofNat (((a * 16 + b) * 16 + c2) * 16 + d) :: acc)
            | _, _, _, _ => .error "Bad Unicode escape in JSON string"
          | _ => .error "Unexpected end of JSON input"
        else .error "Bad escaped character in JSON string"
    else parseStringBody cs1 (c :: acc)

/-- Numeric value of an ASCII digit character. -/
def digitVal (c : Char) : Nat := c.toNat - 48

/-- ASCII digit test. -/
def isDigitChar (c : Char) : Bool := '0' ≤ c && c ≤ '9'

/-- Consume a maximal run of digits, folding them onto an accumulator. -/
def parseDigits : List Char → Nat → Nat × List Char
  | [], acc => (acc, [])
  | c :: cs, acc =>
    if isDigitChar c then parseDigits cs (acc * 10 + digitVal c)
    else (acc, c :: cs)

/-- Parse a JSON number token (integer form: optional minus then digits). -/
def parseNumberToken (cs : List Char) : Except String (Int × List Char) :=
  match cs with
  | '-' :: cs1 =>
    match cs1 with
    | c :: _ =>
      if isDigitChar c then
        let p := parseDigits cs1 0
        .ok (-(p.1 : Int), p.2)
      else .error "Unexpected character in JSON number"
    | [] => .error "Unexpected end of JSON input"
  | c :: _ =>
    if isDigitChar c then
      let p := parseDigits cs 0
      .ok ((p.1 : Int), p.2)
    else .error "Unexpected token in JSON"
  | [] => .error "Unexpected end of JSON input"

mutual

/-- Parse one JSON value (after skipping leading whitespace), returning the
value and the unconsumed suffix. -/
def parseValueF : Nat → List Char → Except String (JsonValue × List Char)
  | 0, _ => .error "JSON nesting too deep"
  | fuel + 1, cs =>
    match skipWs cs with
    | [] => .error "Unexpected end of JSON input"
    | c :: rest =>
      if c = 'n' then
        match rest with
        | 'u' :: 'l' :: 'l' :: r => .ok (.null, r)
        | _ => .error "Unexpected token in JSON"
      else if c = 't' then
        match rest with
        | 'r' :: 'u' :: 'e' :: r => .ok (.bool true, r)
        | _ => .error "Unexpected token in JSON"
      else if c = 'f' then
        match rest with
        | 'a' :: 'l' :: 's' :: 'e' :: r => .ok (.bool false, r)
        | _ => .error "Unexpected token in JSON"
      else if c = '"' then
        match parseStringBody rest [] with
        | .ok (s, r) => .ok (.str s, r)
        | .error m => .error m
      else if c = '[' then
        match skipWs rest with
        | ']' :: r => .ok (.arr [], r)
        | rest2 =>
          match parseValueF fuel rest2 with
          | .ok (v, r) => parseArrayTail fuel [v] r
          | .error m => .error m
      else if c = '{' then
        match skipWs rest with
        | '}' :: r => .ok (.obj [], r)
        | rest2 => parseObjectMember fuel [] rest2
      else if c = '-' || isDigitChar c then
        match parseNumberToken (c :: rest) with
        | .ok (n, r) => .ok (.num n, r)
        | .error m => .error m
      else .error "Unexpected token in JSON"

/-- Parse the continuation of a JSON array after one element. -/
def parseArrayTail : Nat → List JsonValue → List Char →
    Except String (JsonValue × List Char)
  | 0, _, _ => .error "JSON nesting too deep"
  | fuel + 1, acc, cs =>
    match skipWs cs with
    | ']' :: r => .ok (.arr acc, r)
    | ',' :: r =>
      match parseValueF fuel r with
      | .ok (v, r2) => parseArrayTail fuel (acc ++ [v]) r2
      | .error m => .error m
    | _ => .error "Expected comma or closing bracket in JSON array"

/-- Parse one key-value member of a JSON object. -/
def parseObjectMember : Nat → List (String × JsonValue) → List Char →
    Except String (JsonValue × List Char)
  | 0, _, _ => .error "JSON nesting too deep"
  | fuel + 1, acc, cs =>
    match skipWs cs with
    | '"' :: r =>
      match parseStringBody r [] with
      | .ok (k, r2) =>
        match skipWs r2 with
        | ':' :: r3 =>
          match parseValueF fuel r3 with
          | .ok (v, r4) => parseObjectTail fuel (acc ++ [(k, v)]) r4
          | .error m => .error m
        | _ => .error "Expected colon in JSON object"
      | .error m => .error m
    | _ => .error "Expected property name in JSON object"

/-- Parse the continuation of a JSON object after one member. -/
def parseObjectTail : Nat → List (String × JsonValue) → List Char →
    Except String (JsonValue × List Char)
  | 0, _, _ => .error "JSON nesting too deep"
  | fuel + 1, acc, cs =>
    match skipWs cs with
    | '}' :: r => .ok (.obj acc, r)
    | ',' :: r => parseObjectMember fuel acc r
    | _ => .error "Expected comma or closing brace in JSON object"

end

/-- The JSON.parse model: parse one value, then require only whitespace to
remain. -/
def parseJson (s : String) : Except String JsonValue :=
  match parseValueF (s.length + 1) s.data with
  | .ok (v, rest) =>
    match skipWs rest with
    | [] => .ok v
    | _ => .error "Unexpected non-whitespace character after JSON"
  | .error m => .error m

/-- Result record of safeJsonParse: parsed value (undefined on failure) and
error message (null on success). -/
structure ParseOutcome where
  parsed : Option JsonValue
  error : Option String
deriving Repr

/-- safeJsonParse from src/utils/jsonUtils.ts: wraps JSON.parse in try/catch;
on success returns the value with a null error, on any thrown failure returns
undefined with the failure's message. -/
def safeJsonParse (input : String) : ParseOutcome :=
  match parseJson input with
  | .ok v => ⟨some v, none⟩
  | .error m => ⟨none, some m⟩

/-! App-level parse effect and viewer state machine. -/

/-- Characters removed by JavaScript String.prototype.trim: WhiteSpace (tab,
vertical tab, form feed, space, no-break space, BOM, Unicode Zs) and
LineTerminator (LF, CR, LS, PS). -/
def isJsTrimWs (c : Char) : Bool :=
  c = ' ' || c = '\t' || c = '\n' || c = '\r' || c = '\x0b' || c = '\x0c' ||
  c = '\xa0' || c = ' ' || c = ' ' || c = ' ' || c = ' ' ||
  c = ' ' || c = ' ' || c = ' ' || c = ' ' || c = ' ' ||
  c = ' ' || c = ' ' || c = ' ' || c = ' ' || c = ' ' ||
  c = ' ' || c = ' ' || c = '　' || c = '﻿'

/-- Model of JavaScript String.prototype.trim. -/
def jsTrim (s : String) : String :=
  String.mk (((s.data.dropWhile isJsTrimWs).reverse.dropWhile isJsTrimWs).reverse)

/-- The App parse effect (src/unnamed/part_000 lines 153-162): when the active
tab content trims to the empty string, parsedData is set to undefined and
error to null (the trimmed string is falsy); otherwise both are taken from
safeJsonParse.  Result: (parsedData, error). -/
def appParseEffect (content : String) : Option JsonValue × Option String :=
  if jsTrim content = "" then (none, none)
  else
    let r := safeJsonParse content
    (r.parsed, r.error)

/-- The three mutually exclusive presentations of the viewer shell. -/
inductive ViewerState where
  | errorView (message : String)
  | emptyView
  | loadedView (root : JsonValue)
deriving Repr

/-- JavaScript truthiness of the error prop (string or null): null and the
empty string are falsy. -/
def jsTruthyError : Option String → Bool
  | none => false
  | some s => !(s = "")

/-- JsonViewer state selection (src/components/JsonViewer.tsx): a truthy error
selects the Error state; otherwise data === undefined selects the Empty state;
otherwise the Loaded state renders data as the tree root. -/
def viewerState (data : Option JsonValue) (error : Option String) : ViewerState :=
  if jsTruthyError error then .errorView (error.getD "")
  else
    match data with
    | none => .emptyView
    | some v => .loadedView v

/-- Composition of the App parse effect with the viewer state selection: the
presentation shown for a given active tab content. -/
def appPipeline (content : String) : ViewerState :=
  viewerState (appParseEffect content).1 (appParseEffect content).2

/-! JSON.stringify model (used by handleCopyValue with indent argument 2). -/

/-- Decimal digit character (defined for arguments below 10). -/
def digitChar : Nat → Char
  | 0 => '0'
  | 1 => '1'
  | 2 => '2'
  | 3 => '3'
  | 4 => '4'
  | 5 => '5'
  | 6 => '6'
  | 7 => '7'
  | 8 => '8'
  | _ => '9'

/-- Decimal digit characters of a natural number, most significant first,
with fuel bounding the division recursion; fuel above n always suffices. -/
def natToCharsAux : Nat → Nat → List Char
  | 0, _ => []
  | fuel + 1, n =>
    if n < 10 then [digitChar n]
    else natToCharsAux fuel (n / 10) ++ [digitChar (n % 10)]

/-- Decimal digit characters of a natural number, most significant first
(JavaScript String(n) for a nonnegative integer). -/
def natToChars (n : Nat) : List Char := natToCharsAux (n + 1) n

/-- Decimal string of a natural number. -/
def natToString (n : Nat) : String := String.mk (natToChars n)

/-- Decimal character form of an integer (JavaScript String(i)). -/
def intToChars (i : Int) : List Char :=
  if i < 0 then '-' :: natToChars i.natAbs else natToChars i.natAbs

/-- Lowercase hexadecimal digit character (defined for arguments below 16). -/
def hexDigitChar (n : Nat) : Char :=
  if n < 10 then digitChar n
  else if n = 10 then 'a'
  else if n = 11 then 'b'
  else if n = 12 then 'c'
  else if n = 13 then 'd'
  else if n = 14 then 'e'
  else 'f'

/-- The escape JSON.stringify applies to one character of a string: quote and
backslash are backslash-escaped, control characters use the short escapes
or a \u00xx form, everything else is emitted verbatim. -/
def escapeChar (c : Char) : List Char :=
  if c = '"' then ['\\', '"']
  else if c = '\\' then ['\\', '\\']
  else if c = '\x08' then ['\\', 'b']
  else if c = '\t' then ['\\', 't']
  else if c = '\n' then ['\\', 'n']
  else if c = '\x0c' then ['\\', 'f']
  else if c = '\r' then ['\\', 'r']
  else if c.toNat < 32 then
    ['\\', 'u', '0', '0', hexDigitChar (c.toNat / 16), hexDigitChar (c.toNat % 16)]
  else [c]

/-- Escape every character of a string body. -/
def escapeChars : List Char → List Char
  | [] => []
  | c :: cs => escapeChar c ++ escapeChars cs

/-- A JSON string literal: quote, escaped body, quote. -/
def quoteString (s : String) : List Char :=
  '"' :: (escapeChars s.data ++ ['"'])

/-- Indentation: n spaces. -/
def pad (n : Nat) : List Char := List.replicate n ' '

mutual

/-- Characters of JSON.stringify(v, null, 2) when the surrounding indentation
is indent spaces: scalars print inline; nonempty containers open with a
newline, print entries one per line indented two further spaces joined by
comma-newline, and close on a line at the surrounding indentation. -/
def jsonStringifyAux : JsonValue → Nat → List Char
  | .null, _ => ['n', 'u', 'l', 'l']
  | .bool true, _ => ['t', 'r', 'u', 'e']
  | .bool false, _ => ['f', 'a', 'l', 's', 'e']
  | .num n, _ => intToChars n
  | .str s, _ => quoteString s
  | .arr vs, indent =>
    if vs.isEmpty then ['[', ']']
    else
      '[' :: '\n' ::
        (arrItemsChars vs (indent + 2) ++ '\n' :: (pad indent ++ [']']))
  | .obj ms, indent =>
    if ms.isEmpty then ['{', '}']
    else
      '{' :: '\n' ::
        (objItemsChars ms (indent + 2) ++ '\n' :: (pad indent ++ ['}']))

/-- Array elements, one per line at the given indentation, joined by
comma-newline. -/
def arrItemsChars : List JsonValue → Nat → List Char
  | [], _ => []
  | [v], indent => pad indent ++ jsonStringifyAux v indent
  | v :: v2 :: vs, indent =>
    pad indent ++ jsonStringifyAux v indent ++
      ',' :: '\n' :: arrItemsChars (v2 :: vs) indent

/-- Object members (quoted key, colon, space, value), one per line at the
given indentation, joined by comma-newline. -/
def objItemsChars : List (String × JsonValue) → Nat → List Char
  | [], _ => []
  | [(k, v)], indent =>
    pad indent ++ quoteString k ++ (':' :: ' ' :: jsonStringifyAux v indent)
  | (k, v) :: m2 :: ms, indent =>
    pad indent ++ quoteString k ++
      (':' :: ' ' :: (jsonStringifyAux v indent ++
        ',' :: '\n' :: objItemsChars (m2 :: ms) indent))

end

/-- JSON.stringify(v, null, 2) as a string. -/
def jsonStringify2 (v : JsonValue) : String := String.mk (jsonStringifyAux v 0)

/-- The input does not start with an ASCII digit (used to delimit a number
token from its continuation). -/
def headNotDigit : List Char → Prop
  | [] => True
  | c :: _ => isDigitChar c = false

/-- The serializer text separating the remaining array items from the first:
empty when no items remain, otherwise a comma-newline and the items. -/
def arrSep (vs : List JsonValue) (indent : Nat) : List Char :=
  match vs with
  | [] => []
  | v :: rest => ',' :: '\n' :: arrItemsChars (v :: rest) indent

/-- The serializer text separating the remaining object members from the
first: empty when no members remain, otherwise a comma-newline and the
members. -/
def objSep (ms : List (String × JsonValue)) (indent : Nat) : List Char :=
  match ms with
  | [] => []
  | m :: rest => ',' :: '\n' :: objItemsChars (m :: rest) indent

/-- The text handleCopyValue writes to the clipboard
(src/components/JsonNode.tsx lines 46-58): String(value) when the node
classifies as STRING (the bare string contents), otherwise
JSON.stringify(value, null, 2).  The non-str inner branch is unreachable:
only .str classifies as STRING. -/
def handleCopyText (v : JsonValue) : String :=
  if getDataType v = DataType.STRING then
    match v with
    | .str s => s
    | _ => ""
  else jsonStringify2 v

/-! Tree node renderer model (src/components/JsonNode.tsx).  A node's local
expanded state is abstracted as an oracle from (path into the tree, depth) to
Bool; the default initial state is depth < 2 (the useState initializer). -/

/-- Local expanded state initializer: useState(depth < 2). -/
def initialExpanded (depth : Nat) : Bool := decide (depth < 2)

/-- The rendered shape of one node: a scalar row, an inline empty-container
row, a collapsed container row (header, preview, closing bracket on one row),
or an expanded container (header row, child nodes, closing-bracket row).
Each row records whether a trailing comma is rendered on it. -/
inductive Rendered where
  | scalarRow (key : Option String) (v : JsonValue) (depth : Nat) (comma : Bool)
  | emptyContainerRow (key : Option String) (depth : Nat) (comma : Bool)
  | collapsedRow (key : Option String) (depth : Nat) (comma : Bool)
  | expandedRows (key : Option String) (depth : Nat) (headerComma : Bool)
      (children : List Rendered) (closingComma : Bool)
deriving Repr

mutual

/-- Render one JsonNode.  Scalar rows carry a comma exactly when not last
(line 109: !isLast).  Empty containers render brackets inline with a comma
when not last (line 278: !isLast && (!expanded || isEmpty), isEmpty true).
Collapsed nonempty containers render preview and closing bracket inline with
a comma when not last (same line, !expanded true).  Expanded nonempty
containers carry no comma on the header row (same condition, both disjuncts
false) and a comma on the closing-bracket row when not last (line 310). -/
def renderNode (exp : List Nat → Nat → Bool) (path : List Nat)
    (key : Option String) (v : JsonValue) (depth : Nat) (isLast : Bool) :
    Rendered :=
  match v with
  | .obj ms =>
    if ms.isEmpty then .emptyContainerRow key depth (!isLast)
    else if exp path depth then
      .expandedRows key depth false
        (renderMembers exp path ms 0 ms.length depth) (!isLast)
    else .collapsedRow key depth (!isLast)
  | .arr vs =>
    if vs.isEmpty then .emptyContainerRow key depth (!isLast)
    else if exp path depth then
      .expandedRows key depth false
        (renderItems exp path vs 0 vs.length depth) (!isLast)
    else .collapsedRow key depth (!isLast)
  | .str s => .scalarRow key (.str s) depth (!isLast)
  | .num n => .scalarRow key (.num n) depth (!isLast)
  | .bool b => .scalarRow key (.bool b) depth (!isLast)
  | .null => .scalarRow key .null depth (!isLast)

/-- Render object members: each child gets the member key, depth + 1, and
isLast exactly when its index is the final one (line 301). -/
def renderMembers (exp : List Nat → Nat → Bool) (path : List Nat)
    (ms : List (String × JsonValue)) (idx total depth : Nat) : List Rendered :=
  match ms with
  | [] => []
  | (k, v) :: rest =>
    renderNode exp (path ++ [idx]) (some k) v (depth + 1) (idx == total - 1) ::
      renderMembers exp path rest (idx + 1) total depth

/-- Render array items: each child gets keyName null, depth + 1, and isLast
exactly when its index is the final one. -/
def renderItems (exp : List Nat → Nat → Bool) (path : List Nat)
    (vs : List JsonValue) (idx total depth : Nat) : List Rendered :=
  match vs with
  | [] => []
  | v :: rest =>
    renderNode exp (path ++ [idx]) none v (depth + 1) (idx == total - 1) ::
      renderItems exp path rest (idx + 1) total depth

end

/-- Render a document root the way JsonViewer mounts it: keyName null,
depth 0, isLast true (src/components/JsonViewer.tsx lines 121-127). -/
def renderRoot (exp : List Nat → Nat → Bool) (v : JsonValue) : Rendered :=
  renderNode exp [] none v 0 true

/-- The default expansion oracle: every node starts with its useState
initializer, expanded exactly when depth < 2. -/
def renderRootDefault (v : JsonValue) : Rendered :=
  renderRoot (fun _ depth => initialExpanded depth) v

mutual

/-- Checks the trailing-comma discipline of a rendered node given whether the
node is the last sibling: the node's own final row (its only row for
scalars, inline empty containers and collapsed containers; the closing
bracket row for expanded containers) carries a comma exactly when the node
is not last, an expanded header row never carries one, and the node's
children satisfy the same discipline, only the final child counting as
last. -/
def commaOK : Rendered → Bool → Bool
  | .scalarRow _ _ _ comma, isLast => comma == !isLast
  | .emptyContainerRow _ _ comma, isLast => comma == !isLast
  | .collapsedRow _ _ comma, isLast => comma == !isLast
  | .expandedRows _ _ headerComma children closingComma, isLast =>
    headerComma == false && closingComma == !isLast && commaOKChildren children

/-- Checks all children, marking only the final one as last. -/
def commaOKChildren : List Rendered → Bool
  | [] => true
  | [r] => commaOK r true
  | r :: r2 :: rs => commaOK r false && commaOKChildren (r2 :: rs)

end

/-! JsonNode expand/collapse signal handling (src/components/JsonNode.tsx
lines 25, 33-39) under React effect semantics: an effect with dependency
array [sig] runs after mount and after any render in which sig differs from
the previous render's value. -/

/-- Local state of one mounted JsonNode relevant to the signal effects: the
expanded flag and the signal values observed at the last completed render. -/
structure NodeState where
  expanded : Bool
  prevExpandSignal : Nat
  prevCollapseSignal : Nat
deriving Repr, DecidableEq

/-- Mounting a node: expanded initializes to depth < 2, then both effects run
(mount always fires effects); the expand effect sets expanded when the signal
is positive, then the collapse effect clears it when its signal is positive. -/
def mountNode (depth expandSignal collapseSignal : Nat) : NodeState :=
  let e0 := initialExpanded depth
  let e1 := if expandSignal > 0 then true else e0
  let e2 := if collapseSignal > 0 then false else e1
  ⟨e2, expandSignal, collapseSignal⟩

/-- A re-render of a mounted node with current signal values: each effect
re-runs only when its dependency changed since the previous render; the
expand effect (declared first) sets expanded to true when its signal is
positive, then the collapse effect sets it to false when its signal is
positive. -/
def updateNode (s : NodeState) (expandSignal collapseSignal : Nat) : NodeState :=
  let e1 := if expandSignal ≠ s.prevExpandSignal ∧ expandSignal > 0 then true
            else s.expanded
  let e2 := if collapseSignal ≠ s.prevCollapseSignal ∧ collapseSignal > 0 then false
            else e1
  ⟨e2, expandSignal, collapseSignal⟩

/-- The user toggle on a container header (handleToggle, line 173). -/
def toggleNode (s : NodeState) : NodeState :=
  { s with expanded := !s.expanded }

/-- The Expand-All toolbar button (src/components/JsonViewer.tsx line 88):
setExpandSignal(prev => prev + 1). -/
def expandAllClick (sig : Nat) : Nat := sig + 1

/-- The Collapse-All toolbar button (line 95):
setCollapseSignal(prev => prev + 1). -/
def collapseAllClick (sig : Nat) : Nat := sig + 1

/-! Tab bookkeeping (src/unnamed/part_000).  Tab ids in the source are
Date.now().toString(); they are modelled as the numeric timestamp (toString
on naturals is injective and the spec's monotonicity is numeric time order).
Date.now across successive calls is non-decreasing but may repeat within a
millisecond; each operation therefore carries its observed clock value. -/

/-- One tab: id, display title, raw text content. -/
structure Tab where
  id : Nat
  title : String
  content : String
deriving Repr, DecidableEq

/-- The DEFAULT_JSON initial content of Tab 1. -/
def defaultJsonText : String :=
  "\x7b\n  \"welcome\": \"JSON Deep Dive\",\n  \"tips\": [\n    \"Paste your JSON directly with Ctrl+V\",\n    \"Or click the \x27Paste\x27 button below\",\n    \"Use tabs to manage multiple JSON files\"\n  ],\n  \"features\": \x7b\n    \"validation\": true,\n    \"collapsible\": true,\n    \"highlighting\": \"syntax\",\n    \"tabs\": \x7b\n      \"enabled\": true,\n      \"multiInstance\": true\n    \x7d\n  \x7d,\n  \"isSimple\": true\n\x7d"

/-- Tab-related state of App: the tab list and the active tab id. -/
structure AppTabState where
  tabs : List Tab
  activeTabId : Nat
deriving Repr, DecidableEq

/-- Initial state: one tab with id '1' and the default content, active. -/
def initialTabState : AppTabState :=
  ⟨[⟨1, "Tab 1", defaultJsonText⟩], 1⟩

/-- addTab (lines 122-131): a new empty tab with id Date.now() and title
computed from the current count is appended and becomes active. -/
def addTab (s : AppTabState) (now : Nat) : AppTabState :=
  ⟨s.tabs ++ [⟨now, "Tab " ++ natToString (s.tabs.length + 1), ""⟩], now⟩

/-- closeTab (lines 134-150): remove the tab with the given id; if no tab
remains, create a fresh empty Tab 1 with id Date.now() and make it active;
otherwise, if the closed tab was active, switch to the last remaining tab. -/
def closeTab (s : AppTabState) (now : Nat) (id : Nat) : AppTabState :=
  let newTabs := s.tabs.filter (fun t => t.id ≠ id)
  match newTabs with
  | [] => ⟨[⟨now, "Tab 1", ""⟩], now⟩
  | t :: ts =>
    if s.activeTabId = id then ⟨t :: ts, ((t :: ts).getLast (by simp)).id⟩
    else ⟨t :: ts, s.activeTabId⟩

/-- Clicking the tab strip entry at position idx (line 248): the clicked
tab becomes active.  Only rendered tabs can be clicked, so positions beyond
the list leave the state unchanged. -/
def switchTab (s : AppTabState) (idx : Nat) : AppTabState :=
  match s.tabs[idx]? with
  | some t => { s with activeTabId := t.id }
  | none => s

/-- The tab operations reachable from the UI, each carrying the Date.now()
value observed when it runs. -/
inductive TabOp where
  | add (now : Nat)
  | close (now : Nat) (id : Nat)
  | switch (idx : Nat)
deriving Repr, DecidableEq

/-- Apply one tab operation. -/
def applyTabOp (s : AppTabState) : TabOp → AppTabState
  | .add now => addTab s now
  | .close now id => closeTab s now id
  | .switch idx => switchTab s idx

/-- Run a sequence of tab operations from a state. -/
def runTabOps (s : AppTabState) : List TabOp → AppTabState
  | [] => s
  | op :: ops => runTabOps (applyTabOp s op) ops

/-- The ids of a state's tabs in order. -/
def tabIds (s : AppTabState) : List Nat := s.tabs.map Tab.id

/-- The ids assigned by tab creations while running the operations: addTab
always creates; closeTab creates exactly when it empties the list. -/
def createdIds (s : AppTabState) : List TabOp → List Nat
  | [] => []
  | .add now :: ops => now :: createdIds (addTab s now) ops
  | .close now id :: ops =>
    (if s.tabs.filter (fun t => t.id ≠ id) = [] then [now] else []) ++
      createdIds (closeTab s now id) ops
  | .switch idx :: ops => createdIds (switchTab s idx) ops

/-- The tab invariant the spec states: at least one tab exists and the
active tab id references an existing tab. -/
def TabInv (s : AppTabState) : Prop :=
  s.tabs ≠ [] ∧ s.activeTabId ∈ tabIds s

/-- Times carried by an operation (the Date.now() read it performs, if any). -/
def opTimeOf : TabOp → Option Nat
  | .add now => some now
  | .close now _ => some now
  | .switch _ => none

/-- The clock observations are strictly increasing and start above lb. -/
def clockStrict : Nat → List TabOp → Bool
  | _, [] => true
  | lb, op :: ops =>
    match opTimeOf op with
    | some t => lb < t && clockStrict t ops
    | none => clockStrict lb ops

/-- The clock observations are non-decreasing and start at or above lb (the
guarantee Date.now actually gives). -/
def clockMono : Nat → List TabOp → Bool
  | _, [] => true
  | lb, op :: ops =>
    match opTimeOf op with
    | some t => lb ≤ t && clockMono t ops
    | none => clockMono lb ops

/-! Clipboard paste handler (src/unnamed/part_000 lines 181-195). -/

/-- The possible outcomes of the platform clipboard read attempted by
handlePasteFromClipboard: the API is missing, readText rejects with an error
message, or readText resolves with text (possibly empty). -/
inductive ClipboardRead where
  | unavailable
  | failure (errMsg : String)
  | text (s : String)
deriving Repr, DecidableEq

/-- Toast severity. -/
inductive ToastType where
  | error
  | success
deriving Repr, DecidableEq

/-- Observable outcome of handlePasteFromClipboard: the content written into
the active tab (none when nothing was pasted), the toast message and type,
and the error message logged to the console (none on success). -/
structure PasteOutcome where
  newContent : Option String
  toastMsg : String
  toastType : ToastType
  loggedError : Option String
deriving Repr, DecidableEq

/-- handlePasteFromClipboard: a missing API throws "Clipboard API
unavailable"; a rejected read propagates its error; resolved-but-empty text
throws "Clipboard is empty"; every caught failure logs the error and shows
the single error toast "Browser blocked access. Please press Ctrl + V";
nonempty text updates the active tab and shows the success toast. -/
def handlePasteFromClipboard : ClipboardRead → PasteOutcome
  | .unavailable =>
    ⟨none, "Browser blocked access. Please press Ctrl + V", .error,
      some "Clipboard API unavailable"⟩
  | .failure m =>
    ⟨none, "Browser blocked access. Please press Ctrl + V", .error, some m⟩
  | .text s =>
    if s = "" then
      ⟨none, "Browser blocked access. Please press Ctrl + V", .error,
        some "Clipboard is empty"⟩
    else ⟨some s, "Pasted from clipboard!", .success, none⟩

/-! Theorems. -/

/-- Every error message produced by parseStringBody is nonempty. -/
theorem parseStringBody_error_nonempty :
    ∀ cs acc m, parseStringBody cs acc = .error m → m ≠ "" := by
  intro cs acc
  induction cs, acc using parseStringBody.induct <;> intro m h <;>
    rw [parseStringBody.eq_def] at h <;> simp_all <;> subst h <;> decide

/-- Every error message produced by parseNumberToken is nonempty. -/
theorem parseNumberToken_error_nonempty :
    ∀ cs m, parseNumberToken cs = .error m → m ≠ "" := by
  intro cs m h
  rw [parseNumberToken.eq_def] at h
  repeat' split at h
  all_goals first
    | exact (Except.noConfusion h)
    | (injection h with h2; subst h2; decide)

/-- Every error message produced by the value parser and its loop helpers is
nonempty. -/
theorem parsers_error_nonempty : ∀ fuel,
    (∀ cs m, parseValueF fuel cs = .error m → m ≠ "") ∧
    (∀ acc cs m, parseArrayTail fuel acc cs = .error m → m ≠ "") ∧
    (∀ acc cs m, parseObjectMember fuel acc cs = .error m → m ≠ "") ∧
    (∀ acc cs m, parseObjectTail fuel acc cs = .error m → m ≠ "") := by
  intro fuel
  induction fuel with
  | zero =>
    refine ⟨fun cs m h => ?_, fun acc cs m h => ?_, fun acc cs m h => ?_,
      fun acc cs m h => ?_⟩ <;>
    · injection (show (Except.error "JSON nesting too deep" :
        Except String (JsonValue × List Char)) = .error m from h) with h2
      subst h2
      decide
  | succ n ih =>
    obtain ⟨ih1, ih2, ih3, ih4⟩ := ih
    refine ⟨fun cs m h => ?_, fun acc cs m h => ?_, fun acc cs m h => ?_,
      fun acc cs m h => ?_⟩
    · rw [parseValueF] at h
      repeat' split at h
      all_goals first
        | exact (Except.noConfusion h)
        | (injection h with h2; subst h2;
            first
              | decide
              | solve_by_elim [parseStringBody_error_nonempty,
                  parseNumberToken_error_nonempty, ih1, ih2, ih3, ih4])
        | solve_by_elim [parseStringBody_error_nonempty,
            parseNumberToken_error_nonempty, ih1, ih2, ih3, ih4]
    · rw [parseArrayTail] at h
      repeat' split at h
      all_goals first
        | exact (Except.noConfusion h)
        | (injection h with h2; subst h2;
            first
              | decide
              | solve_by_elim [parseStringBody_error_nonempty,
                  parseNumberToken_error_nonempty, ih1, ih2, ih3, ih4])
        | solve_by_elim [parseStringBody_error_nonempty,
            parseNumberToken_error_nonempty, ih1, ih2, ih3, ih4]
    · rw [parseObjectMember] at h
      repeat' split at h
      all_goals first
        | exact (Except.noConfusion h)
        | (injection h with h2; subst h2;
            first
              | decide
              | solve_by_elim [parseStringBody_error_nonempty,
                  parseNumberToken_error_nonempty, ih1, ih2, ih3, ih4])
        | solve_by_elim [parseStringBody_error_nonempty,
            parseNumberToken_error_nonempty, ih1, ih2, ih3, ih4]
    · rw [parseObjectTail] at h
      repeat' split at h
      all_goals first
        | exact (Except.noConfusion h)
        | (injection h with h2; subst h2;
            first
              | decide
              | solve_by_elim [parseStringBody_error_nonempty,
                  parseNumberToken_error_nonempty, ih1, ih2, ih3, ih4])
        | solve_by_elim [parseStringBody_error_nonempty,
            parseNumberToken_error_nonempty, ih1, ih2, ih3, ih4]

/-- Every error message produced by parseJson is nonempty. -/
theorem parseJson_error_nonempty :
    ∀ s m, parseJson s = .error m → m ≠ "" := by
  intro s m h
  rw [parseJson] at h
  repeat' split at h
  all_goals first
    | exact (Except.noConfusion h)
    | (injection h with h2; subst h2;
        first
          | decide
          | solve_by_elim [(parsers_error_nonempty (s.length + 1)).1])
    | solve_by_elim [(parsers_error_nonempty (s.length + 1)).1]

/-- A string all of whose characters are trim whitespace trims to empty. -/
theorem jsTrim_of_all_ws (s : String) (h : ∀ c ∈ s.data, isJsTrimWs c = true) :
    jsTrim s = "" := by
  have h1 : s.data.dropWhile isJsTrimWs = [] :=
    List.dropWhile_eq_nil_iff.mpr h
  simp [jsTrim, h1]

/-- C1: For every input string that is empty or consists only of whitespace,
the parse effect yields the distinguished no-value result (parsedData
undefined, error null, not an error diagnostic), and the viewer shell selects
the Empty state, never the Error state, for that input. -/
theorem C1_blank_input_selects_empty_state (s : String)
    (h : ∀ c ∈ s.data, isJsTrimWs c = true) :
    appParseEffect s = (none, none) ∧ appPipeline s = .emptyView ∧
      ∀ msg, appPipeline s ≠ .errorView msg := by
  have ht : jsTrim s = "" := jsTrim_of_all_ws s h
  refine ⟨by simp [appParseEffect, ht], ?_, ?_⟩
  · simp [appPipeline, appParseEffect, ht, viewerState, jsTruthyError]
  · intro msg
    simp [appPipeline, appParseEffect, ht, viewerState, jsTruthyError]

/-- Witness for C1 at the whitespace-only input of three spaces. -/
theorem C1_blank_input_selects_empty_state_witness :
    appParseEffect "   " = (none, none) ∧ appPipeline "   " = .emptyView ∧
      ∀ msg, appPipeline "   " ≠ .errorView msg :=
  C1_blank_input_selects_empty_state "   " (by decide)

/-- C2 fails on the code: the empty-clipboard case shows exactly the same
user-visible toast message as a true access failure (a rejected read, here
with a permission-denial message) — the message texts are equal, not
different, and both are error toasts. -/
theorem C2_counterexample_same_message :
    (handlePasteFromClipboard (.text "")).toastMsg =
      (handlePasteFromClipboard (.failure "NotAllowedError: Read permission denied.")).toastMsg ∧
    (handlePasteFromClipboard (.text "")).toastType = .error ∧
    (handlePasteFromClipboard
        (.failure "NotAllowedError: Read permission denied.")).toastType = .error :=
  ⟨rfl, rfl, rfl⟩

/-- C2 amended: every failed clipboard-read attempt — missing API, rejected
read, or empty clipboard — produces the same user-visible error notice,
"Browser blocked access. Please press Ctrl + V", pastes nothing, and the
cases are distinguished only in the console log; a nonempty read instead
pastes the text with a success toast. -/
theorem C2_uniform_failure_notice (r : ClipboardRead)
    (h : r = .unavailable ∨ (∃ m, r = .failure m) ∨ r = .text "") :
    (handlePasteFromClipboard r).toastMsg =
        "Browser blocked access. Please press Ctrl + V" ∧
      (handlePasteFromClipboard r).toastType = .error ∧
      (handlePasteFromClipboard r).newContent = none := by
  rcases h with rfl | ⟨m, rfl⟩ | rfl <;> exact ⟨rfl, rfl, rfl⟩

/-- Witness for C2's amended theorem at the empty-clipboard case. -/
theorem C2_uniform_failure_notice_witness :
    (handlePasteFromClipboard (.text "")).toastMsg =
        "Browser blocked access. Please press Ctrl + V" ∧
      (handlePasteFromClipboard (.text "")).toastType = .error ∧
      (handlePasteFromClipboard (.text "")).newContent = none :=
  C2_uniform_failure_notice (.text "") (Or.inr (Or.inr rfl))

/-- C3: a mounted node's re-render forces expanded to true whenever the
expand counter increases (the collapse counter unchanged), forces it to
false whenever the collapse counter increases (the expand counter
unchanged) — in both cases regardless of the current local state — and when
neither counter changed the effects do not re-fire and the state is
untouched whatever the counters' absolute values; each toolbar invocation
strictly increases its counter, so repeated clicks each re-trigger the
effect. -/
theorem C3_signal_effects :
    (∀ (s : NodeState) (e c : Nat), s.prevExpandSignal < e →
      c = s.prevCollapseSignal → (updateNode s e c).expanded = true) ∧
    (∀ (s : NodeState) (e c : Nat), s.prevCollapseSignal < c →
      e = s.prevExpandSignal → (updateNode s e c).expanded = false) ∧
    (∀ s : NodeState,
      updateNode s s.prevExpandSignal s.prevCollapseSignal = s) ∧
    (∀ sig : Nat, sig < expandAllClick sig ∧ sig < collapseAllClick sig) := by
  refine ⟨?_, ?_, ?_, ?_⟩
  · intro s e c h1 h2
    have hne : e ≠ s.prevExpandSignal := by omega
    have hpos : e > 0 := by omega
    simp [updateNode, h2, hne, hpos]
  · intro s e c h1 h2
    have hne : c ≠ s.prevCollapseSignal := by omega
    have hpos : c > 0 := by omega
    simp [updateNode, hne, hpos]
  · intro s
    cases s
    simp [updateNode]
  · intro sig
    exact ⟨Nat.lt_succ_self sig, Nat.lt_succ_self sig⟩

/-- Witness for C3 at a node that is collapsed with both counters at 0,
re-rendered after one expand click and, separately, after one collapse
click. -/
theorem C3_signal_effects_witness :
    (updateNode ⟨false, 0, 0⟩ 1 0).expanded = true ∧
      (updateNode ⟨true, 0, 0⟩ 0 1).expanded = false ∧
      updateNode ⟨true, 2, 3⟩ 2 3 = ⟨true, 2, 3⟩ :=
  ⟨C3_signal_effects.1 ⟨false, 0, 0⟩ 1 0 (by decide) rfl,
    C3_signal_effects.2.1 ⟨true, 0, 0⟩ 0 1 (by decide) rfl,
    C3_signal_effects.2.2.1 ⟨true, 2, 3⟩⟩

/-- C5: a container node's expanded flag initializes to true exactly when its
depth is below 2; in the default render of the document with "a" wrapping
"b" wrapping "c", the root (depth 0) and the value of "a" (depth 1) start
expanded while the value of "b" (depth 2) starts collapsed. -/
theorem C5_default_expansion :
    (∀ depth : Nat, initialExpanded depth = true ↔ depth < 2) ∧
    renderRootDefault (.obj [("a", .obj [("b", .obj [("c", .num 1)])])]) =
      .expandedRows none 0 false
        [.expandedRows (some "a") 1 false
          [.collapsedRow (some "b") 2 false] false] false :=
  ⟨fun depth => by simp [initialExpanded], rfl⟩

/-- C4: safeJsonParse is a total function of the input text — it never
propagates a failure to its caller: for every input it either returns the
parsed value with a null error, or no value with the parser's own error
message (and the spec's malformed examples produce a diagnostic and the
Error state, not the Loaded state). -/
theorem C4_parse_never_throws :
    (∀ s : String,
      (∃ v, parseJson s = .ok v ∧ safeJsonParse s = ⟨some v, none⟩) ∨
      (∃ m, parseJson s = .error m ∧ safeJsonParse s = ⟨none, some m⟩)) ∧
    appPipeline "\x7ba:1\x7d" = .errorView "Expected property name in JSON object" ∧
    appPipeline "[1,2," = .errorView "Unexpected end of JSON input" := by
  refine ⟨fun s => ?_, rfl, rfl⟩
  cases h : parseJson s with
  | ok v => exact Or.inl ⟨v, rfl, by simp [safeJsonParse, h]⟩
  | error m => exact Or.inr ⟨m, rfl, by simp [safeJsonParse, h]⟩

/-- C10: the viewer shell selects the Empty state only when the parsed data
is the undefined sentinel, which the pipeline produces only for
blank-after-trim tab content; the successfully parsed falsy JSON values
null, false, 0 and the empty string select the Loaded state with that value
as the rendered tree root. -/
theorem C10_empty_state_only_for_undefined :
    (∀ data error, viewerState data error = .emptyView → data = none) ∧
    (∀ s, appPipeline s = .emptyView → jsTrim s = "") ∧
    appPipeline "null" = .loadedView .null ∧
    appPipeline "false" = .loadedView (.bool false) ∧
    appPipeline "0" = .loadedView (.num 0) ∧
    appPipeline "\"\"" = .loadedView (.str "") := by
  refine ⟨?_, ?_, rfl, rfl, rfl, rfl⟩
  · intro data error h
    cases data with
    | none => rfl
    | some v =>
      rw [viewerState] at h
      split at h
      · exact (ViewerState.noConfusion h)
      · exact (ViewerState.noConfusion h)
  · intro s h
    by_cases ht : jsTrim s = ""
    · exact ht
    · exfalso
      rw [appPipeline, appParseEffect] at h
      simp only [ht, if_false] at h
      cases hp : parseJson s with
      | ok v => simp [safeJsonParse, hp, viewerState, jsTruthyError] at h
      | error m =>
        have hm : m ≠ "" := parseJson_error_nonempty s m hp
        simp [safeJsonParse, hp, viewerState, jsTruthyError, hm] at h

/-- Witness for C10 applied at the viewer's Empty configuration and at the
blank input. -/
theorem C10_empty_state_only_for_undefined_witness :
    (none : Option JsonValue) = none ∧ jsTrim "" = "" :=
  ⟨C10_empty_state_only_for_undefined.1 none none rfl,
    C10_empty_state_only_for_undefined.2.1 "" rfl⟩

/-- Checking a cons cell of children: the head is checked as last exactly
when the tail is empty. -/
theorem commaOKChildren_cons (r : Rendered) (rs : List Rendered) :
    commaOKChildren (r :: rs) = (commaOK r rs.isEmpty && commaOKChildren rs) := by
  cases rs <;> simp [commaOKChildren]

/-- renderMembers returns an empty row list exactly on an empty member
list. -/
theorem renderMembers_isEmpty (exp : List Nat → Nat → Bool) (path : List Nat)
    (ms : List (String × JsonValue)) (idx total depth : Nat) :
    (renderMembers exp path ms idx total depth).isEmpty = ms.isEmpty := by
  cases ms with
  | nil => rw [renderMembers]; rfl
  | cons m rest =>
    match m with
    | (k, v) => rw [renderMembers]; rfl

/-- renderItems returns an empty row list exactly on an empty item list. -/
theorem renderItems_isEmpty (exp : List Nat → Nat → Bool) (path : List Nat)
    (vs : List JsonValue) (idx total depth : Nat) :
    (renderItems exp path vs idx total depth).isEmpty = vs.isEmpty := by
  cases vs with
  | nil => rw [renderItems]; rfl
  | cons v rest => rw [renderItems]; rfl

mutual

/-- Every rendered node obeys the trailing-comma discipline, for every
expansion state. -/
theorem commaOK_renderNode (exp : List Nat → Nat → Bool) (path : List Nat)
    (key : Option String) (v : JsonValue) (depth : Nat) (isLast : Bool) :
    commaOK (renderNode exp path key v depth isLast) isLast = true := by
  match v with
  | .str s => simp [renderNode, commaOK]
  | .num n => simp [renderNode, commaOK]
  | .bool b => simp [renderNode, commaOK]
  | .null => simp [renderNode, commaOK]
  | .obj ms =>
    rw [renderNode]
    by_cases he : ms.isEmpty
    · simp [he, commaOK]
    · by_cases hx : exp path depth
      · simp only [he, hx, if_false, if_true, Bool.false_eq_true]
        rw [commaOK]
        simp [commaOK_renderMembers exp path ms 0 ms.length depth (by omega)]
      · simp [he, hx, commaOK]
  | .arr vs =>
    rw [renderNode]
    by_cases he : vs.isEmpty
    · simp [he, commaOK]
    · by_cases hx : exp path depth
      · simp only [he, hx, if_false, if_true, Bool.false_eq_true]
        rw [commaOK]
        simp [commaOK_renderItems exp path vs 0 vs.length depth (by omega)]
      · simp [he, hx, commaOK]

/-- Rendered object members obey the trailing-comma discipline when total
counts the full member list. -/
theorem commaOK_renderMembers (exp : List Nat → Nat → Bool) (path : List Nat)
    (ms : List (String × JsonValue)) (idx total depth : Nat)
    (h : total = idx + ms.length) :
    commaOKChildren (renderMembers exp path ms idx total depth) = true := by
  match ms with
  | [] => rw [renderMembers, commaOKChildren]
  | (k, v) :: rest =>
    rw [renderMembers, commaOKChildren_cons, renderMembers_isEmpty]
    have hb : (idx == total - 1) = rest.isEmpty := by
      cases rest <;> simp at h ⊢ <;> omega
    rw [hb]
    simp [commaOK_renderNode exp (path ++ [idx]) (some k) v (depth + 1) rest.isEmpty,
      commaOK_renderMembers exp path rest (idx + 1) total depth (by simp at h ⊢; omega)]

/-- Rendered array items obey the trailing-comma discipline when total
counts the full item list. -/
theorem commaOK_renderItems (exp : List Nat → Nat → Bool) (path : List Nat)
    (vs : List JsonValue) (idx total depth : Nat)
    (h : total = idx + vs.length) :
    commaOKChildren (renderItems exp path vs idx total depth) = true := by
  match vs with
  | [] => rw [renderItems, commaOKChildren]
  | v :: rest =>
    rw [renderItems, commaOKChildren_cons, renderItems_isEmpty]
    have hb : (idx == total - 1) = rest.isEmpty := by
      cases rest <;> simp at h ⊢ <;> omega
    rw [hb]
    simp [commaOK_renderNode exp (path ++ [idx]) none v (depth + 1) rest.isEmpty,
      commaOK_renderItems exp path rest (idx + 1) total depth (by simp at h ⊢; omega)]

end

/-- C7: in every rendered tree, under every expansion state, a node's own
final row carries a trailing comma exactly when the node is not the last
sibling, and an expanded container's header row never carries one while its
closing-bracket row carries the comma exactly when the container is not
last; concretely, in the rendered array of 1 and 2, element 1 carries a
trailing comma and element 2 does not. -/
theorem C7_trailing_comma_iff_not_last :
    (∀ (exp : List Nat → Nat → Bool) (path : List Nat) (key : Option String)
        (v : JsonValue) (depth : Nat) (isLast : Bool),
      commaOK (renderNode exp path key v depth isLast) isLast = true) ∧
    renderRootDefault (.arr [.num 1, .num 2]) =
      .expandedRows none 0 false
        [.scalarRow none (.num 1) 1 true, .scalarRow none (.num 2) 1 false]
        false :=
  ⟨commaOK_renderNode, rfl⟩

/-- Witness for C5 at depths 1 and 2. -/
theorem C5_default_expansion_witness :
    initialExpanded 1 = true ∧ ¬ initialExpanded 2 = true :=
  ⟨(C5_default_expansion.1 1).mpr (by decide),
    fun h => by
      have := (C5_default_expansion.1 2).mp h
      omega⟩

/-- A successful indexed lookup witnesses membership. -/
theorem mem_of_getElemOpt {α : Type} : ∀ (l : List α) (i : Nat) (a : α),
    l[i]? = some a → a ∈ l := by
  intro l
  induction l with
  | nil => intro i a h; simp at h
  | cons b rest ih =>
    intro i a h
    cases i with
    | zero => simp at h; simp [h]
    | succ j => simp at h; exact List.mem_cons_of_mem b (ih j a h)

/-- Every single tab operation preserves the tab invariant. -/
theorem tabInv_step (s : AppTabState) (op : TabOp) (h : TabInv s) :
    TabInv (applyTabOp s op) := by
  obtain ⟨h1, h2⟩ := h
  cases op with
  | add now =>
    refine ⟨by simp [applyTabOp, addTab], ?_⟩
    simp [applyTabOp, addTab, tabIds]
  | close now id =>
    rw [applyTabOp, closeTab]
    cases hf : s.tabs.filter (fun t => t.id ≠ id) with
    | nil => exact ⟨by simp, by simp [tabIds]⟩
    | cons t ts =>
      by_cases ha : s.activeTabId = id
      · simp only [ha, if_true]
        refine ⟨by simp, ?_⟩
        simp only [tabIds, List.mem_map]
        exact ⟨(t :: ts).getLast (by simp), List.getLast_mem _, rfl⟩
      · simp only [ha, if_false]
        refine ⟨by simp, ?_⟩
        simp only [tabIds, List.mem_map] at h2 ⊢
        obtain ⟨tab, htab, hid⟩ := h2
        refine ⟨tab, ?_, hid⟩
        rw [← hf]
        refine List.mem_filter.mpr ⟨htab, ?_⟩
        simp
        omega
  | switch idx =>
    rw [applyTabOp, switchTab]
    cases hg : s.tabs[idx]? with
    | none => exact ⟨h1, h2⟩
    | some t =>
      refine ⟨h1, ?_⟩
      simp only [tabIds, List.mem_map]
      exact ⟨t, mem_of_getElemOpt _ _ _ hg, rfl⟩

/-- Running any operation sequence preserves the tab invariant. -/
theorem tabInv_run (ops : List TabOp) :
    ∀ s, TabInv s → TabInv (runTabOps s ops) := by
  induction ops with
  | nil => intro s h; exact h
  | cons op rest ih => intro s h; exact ih _ (tabInv_step s op h)

/-- C8: after every sequence of tab operations from the initial state, at
least one tab exists and the active tab id references an existing tab;
closing a state's only tab produces exactly one tab with empty content whose
id is the fresh close-time timestamp and which becomes active; and closing
the active tab when others remain switches the active id to the last
remaining tab. -/
theorem C8_tab_operations_invariant :
    (∀ ops : List TabOp, (runTabOps initialTabState ops).tabs ≠ [] ∧
      (runTabOps initialTabState ops).activeTabId ∈
        tabIds (runTabOps initialTabState ops)) ∧
    (∀ (s : AppTabState) (t : Tab) (now : Nat), s.tabs = [t] →
      closeTab s now t.id = ⟨[⟨now, "Tab 1", ""⟩], now⟩) ∧
    (∀ (s : AppTabState) (now id : Nat) (t : Tab) (ts : List Tab),
      s.activeTabId = id → s.tabs.filter (fun tb => tb.id ≠ id) = t :: ts →
      closeTab s now id = ⟨t :: ts, ((t :: ts).getLast (by simp)).id⟩) := by
  refine ⟨?_, ?_, ?_⟩
  · intro ops
    exact tabInv_run ops initialTabState
      ⟨by simp [initialTabState], by simp [initialTabState, tabIds]⟩
  · intro s t now h
    simp [closeTab, h]
  · intro s now id t ts ha hf
    rw [closeTab]
    simp only [hf, ha, if_true]

/-- Witness for C8: closing the only tab of a one-tab state at time 9, and
closing the active middle tab of a three-tab state. -/
theorem C8_tab_operations_invariant_witness :
    closeTab ⟨[⟨1, "Tab 1", "x"⟩], 1⟩ 9 1 = ⟨[⟨9, "Tab 1", ""⟩], 9⟩ ∧
    closeTab ⟨[⟨1, "a", ""⟩, ⟨2, "b", ""⟩, ⟨3, "c", ""⟩], 2⟩ 9 2 =
      ⟨[⟨1, "a", ""⟩, ⟨3, "c", ""⟩], 3⟩ := by
  constructor
  · exact C8_tab_operations_invariant.2.1 ⟨[⟨1, "Tab 1", "x"⟩], 1⟩
      ⟨1, "Tab 1", "x"⟩ 9 rfl
  · have h := C8_tab_operations_invariant.2.2
      ⟨[⟨1, "a", ""⟩, ⟨2, "b", ""⟩, ⟨3, "c", ""⟩], 2⟩ 9 2
      ⟨1, "a", ""⟩ [⟨3, "c", ""⟩] rfl (by decide)
    exact h.trans (by decide)

/-- Lower-bounded non-decreasing clocks bound and order the created ids. -/
theorem createdIds_mono_bound : ∀ (ops : List TabOp) (s : AppTabState) (lb : Nat),
    clockMono lb ops = true →
    (∀ c ∈ createdIds s ops, lb ≤ c) ∧
      List.Pairwise (· ≤ ·) (createdIds s ops) := by
  intro ops
  induction ops with
  | nil => intro s lb _; simp [createdIds]
  | cons op rest ih =>
    intro s lb hc
    cases op with
    | add now =>
      rw [clockMono, opTimeOf] at hc
      simp only [Bool.and_eq_true, decide_eq_true_eq] at hc
      obtain ⟨hlb, hc2⟩ := hc
      obtain ⟨ihb, ihp⟩ := ih (addTab s now) now hc2
      rw [createdIds]
      constructor
      · intro c hcmem
        rcases List.mem_cons.mp hcmem with rfl | hmem
        · exact hlb
        · exact Nat.le_trans hlb (ihb c hmem)
      · exact List.pairwise_cons.mpr ⟨fun c hmem => ihb c hmem, ihp⟩
    | close now id =>
      rw [clockMono, opTimeOf] at hc
      simp only [Bool.and_eq_true, decide_eq_true_eq] at hc
      obtain ⟨hlb, hc2⟩ := hc
      obtain ⟨ihb, ihp⟩ := ih (closeTab s now id) now hc2
      rw [createdIds]
      by_cases hf : s.tabs.filter (fun t => t.id ≠ id) = []
      · simp only [hf, if_true, List.singleton_append]
        constructor
        · intro c hcmem
          rcases List.mem_cons.mp hcmem with rfl | hmem
          · exact hlb
          · exact Nat.le_trans hlb (ihb c hmem)
        · exact List.pairwise_cons.mpr ⟨fun c hmem => ihb c hmem, ihp⟩
      · simp only [hf, if_false, List.nil_append]
        exact ⟨fun c hmem => Nat.le_trans hlb (ihb c hmem), ihp⟩
    | switch idx =>
      rw [clockMono, opTimeOf] at hc
      rw [createdIds]
      exact ih (switchTab s idx) lb hc

/-- Adding a tab appends its id. -/
theorem tabIds_addTab (s : AppTabState) (now : Nat) :
    tabIds (addTab s now) = tabIds s ++ [now] := by
  simp [tabIds, addTab]

/-- Closing a tab either restarts with the fresh id alone or keeps a
sublist of the previous ids. -/
theorem tabIds_closeTab_sub (s : AppTabState) (now id : Nat) :
    tabIds (closeTab s now id) = [now] ∨
      (tabIds (closeTab s now id)).Sublist (tabIds s) := by
  rw [closeTab]
  split
  · exact Or.inl rfl
  next t ts hfc =>
    have hsub : (t :: ts).Sublist s.tabs := hfc ▸ List.filter_sublist s.tabs
    right
    split <;> exact hsub.map Tab.id

/-- Switching tabs leaves the tab list unchanged. -/
theorem tabIds_switchTab (s : AppTabState) (idx : Nat) :
    tabIds (switchTab s idx) = tabIds s := by
  rw [switchTab]
  cases s.tabs[idx]? <;> simp [tabIds]

/-- Under a strictly increasing clock that starts above every current id,
tab ids stay pairwise distinct and created ids are strictly increasing. -/
theorem createdIds_strict : ∀ (ops : List TabOp) (s : AppTabState) (lb : Nat),
    clockStrict lb ops = true →
    (∀ i ∈ tabIds s, i ≤ lb) → (tabIds s).Nodup →
    (tabIds (runTabOps s ops)).Nodup ∧
      (∀ c ∈ createdIds s ops, lb < c) ∧
      List.Pairwise (· < ·) (createdIds s ops) := by
  intro ops
  induction ops with
  | nil =>
    intro s lb _ _ hnd
    exact ⟨hnd, by simp [createdIds], by simp [createdIds]⟩
  | cons op rest ih =>
    intro s lb hc hbound hnd
    cases op with
    | add now =>
      rw [clockStrict, opTimeOf] at hc
      simp only [Bool.and_eq_true, decide_eq_true_eq] at hc
      obtain ⟨hlb, hc2⟩ := hc
      have hbound2 : ∀ i ∈ tabIds (addTab s now), i ≤ now := by
        intro i hi
        rw [tabIds_addTab] at hi
        rcases List.mem_append.mp hi with hi | hi
        · exact Nat.le_of_lt (Nat.lt_of_le_of_lt (hbound i hi) hlb)
        · simp at hi; omega
      have hnd2 : (tabIds (addTab s now)).Nodup := by
        rw [tabIds_addTab]
        refine List.Nodup.append hnd (by simp) ?_
        intro a ha hb
        simp at hb
        subst hb
        have h2 := hbound a ha
        omega
      obtain ⟨ihnd, ihb, ihp⟩ := ih (addTab s now) now hc2 hbound2 hnd2
      rw [runTabOps, applyTabOp]
      refine ⟨ihnd, ?_, ?_⟩
      · rw [createdIds]
        intro c hcmem
        rcases List.mem_cons.mp hcmem with rfl | hmem
        · exact hlb
        · exact Nat.lt_trans hlb (ihb c hmem)
      · rw [createdIds]
        exact List.pairwise_cons.mpr ⟨fun c hmem => ihb c hmem, ihp⟩
    | close now id =>
      rw [clockStrict, opTimeOf] at hc
      simp only [Bool.and_eq_true, decide_eq_true_eq] at hc
      obtain ⟨hlb, hc2⟩ := hc
      have hbound2 : ∀ i ∈ tabIds (closeTab s now id), i ≤ now := by
        intro i hi
        rcases tabIds_closeTab_sub s now id with heq | hsub
        · rw [heq] at hi
          simp at hi
          omega
        · have h3 := hbound i (hsub.subset hi)
          omega
      have hnd2 : (tabIds (closeTab s now id)).Nodup := by
        rcases tabIds_closeTab_sub s now id with heq | hsub
        · rw [heq]
          simp
        · exact hsub.nodup hnd
      obtain ⟨ihnd, ihb, ihp⟩ := ih (closeTab s now id) now hc2 hbound2 hnd2
      rw [runTabOps, applyTabOp]
      refine ⟨ihnd, ?_, ?_⟩
      · rw [createdIds]
        intro c hcmem
        by_cases hf : s.tabs.filter (fun t => t.id ≠ id) = []
        · simp only [hf, if_true, List.singleton_append] at hcmem
          rcases List.mem_cons.mp hcmem with rfl | hmem
          · exact hlb
          · exact Nat.lt_trans hlb (ihb c hmem)
        · simp only [hf, if_false, List.nil_append] at hcmem
          exact Nat.lt_trans hlb (ihb c hcmem)
      · rw [createdIds]
        by_cases hf : s.tabs.filter (fun t => t.id ≠ id) = []
        · simp only [hf, if_true, List.singleton_append]
          exact List.pairwise_cons.mpr ⟨fun c hmem => ihb c hmem, ihp⟩
        · simp only [hf, if_false, List.nil_append]
          exact ihp
    | switch idx =>
      rw [clockStrict, opTimeOf] at hc
      obtain ⟨ihnd, ihb, ihp⟩ := ih (switchTab s idx) lb hc
        (by rw [tabIds_switchTab]; exact hbound) (by rw [tabIds_switchTab]; exact hnd)
      rw [runTabOps, applyTabOp]
      exact ⟨ihnd, by rw [createdIds]; exact ihb, by rw [createdIds]; exact ihp⟩

/-- C9 fails on the code as stated: two tab creations within the same
millisecond (Date.now returns 5 both times, a non-decreasing clock) leave
the reachable tab list with duplicate ids 5 and 5, so tab ids are not
pairwise unique for every operation sequence. -/
theorem C9_counterexample_duplicate_ids :
    ¬ (tabIds (runTabOps initialTabState [.add 5, .add 5])).Nodup ∧
    clockMono 1 [TabOp.add 5, TabOp.add 5] = true := by
  exact ⟨by decide, by decide⟩

/-- C9 amended: under the non-decreasing clock Date.now guarantees, the ids
assigned by successive tab creations are monotonically non-decreasing; and
when moreover every creation happens at a strictly later millisecond than
the previous operation (clock strictly increasing, starting above the
initial id 1), tab ids are pairwise unique in every reachable state and
created ids strictly increase. -/
theorem C9_ids_unique_monotonic_amended :
    (∀ ops : List TabOp, clockMono 1 ops = true →
      List.Pairwise (· ≤ ·) (createdIds initialTabState ops)) ∧
    (∀ ops : List TabOp, clockStrict 1 ops = true →
      (tabIds (runTabOps initialTabState ops)).Nodup ∧
      List.Pairwise (· < ·) (createdIds initialTabState ops)) := by
  constructor
  · intro ops hc
    exact (createdIds_mono_bound ops initialTabState 1 hc).2
  · intro ops hc
    have h := createdIds_strict ops initialTabState 1 hc
      (by simp [initialTabState, tabIds]) (by simp [initialTabState, tabIds])
    exact ⟨h.1, h.2.2⟩

/-- Witness for the amended C9 on the strictly clocked sequence adding tabs
at times 3 and 5. -/
theorem C9_ids_unique_monotonic_amended_witness :
    List.Pairwise (· ≤ ·) (createdIds initialTabState [.add 3, .add 5]) ∧
    (tabIds (runTabOps initialTabState [.add 3, .add 5])).Nodup :=
  ⟨C9_ids_unique_monotonic_amended.1 [.add 3, .add 5] (by decide),
    (C9_ids_unique_monotonic_amended.2 [.add 3, .add 5] (by decide)).1⟩

/-! Support lemmas for the copy round-trip (C6). -/

/-- digitChar yields a digit character denoting its argument. -/
theorem digitChar_spec (n : Nat) (h : n < 10) :
    isDigitChar (digitChar n) = true ∧ digitVal (digitChar n) = n := by
  interval_cases n <;> exact ⟨by decide, by decide⟩

/-- hexVal inverts hexDigitChar below 16. -/
theorem hexVal_hexDigitChar (n : Nat) (h : n < 16) :
    hexVal (hexDigitChar n) = some n := by
  interval_cases n <;> decide

/-- parseDigits stops immediately on a non-digit head. -/
theorem parseDigits_stop (rest : List Char) (acc : Nat) (h : headNotDigit rest) :
    parseDigits rest acc = (acc, rest) := by
  cases rest with
  | nil => rfl
  | cons c cs =>
    rw [headNotDigit] at h
    simp [parseDigits, h]

/-- parseDigits consumes the decimal rendering of n and folds it onto the
accumulator. -/
theorem parseDigits_natToCharsAux : ∀ fuel n, n < fuel → ∀ rest acc,
    parseDigits (natToCharsAux fuel n ++ rest) acc =
      parseDigits rest (acc * 10 ^ (natToCharsAux fuel n).length + n) := by
  intro fuel
  induction fuel with
  | zero => intro n h; exact absurd h (Nat.not_lt_zero n)
  | succ f ih =>
    intro n h rest acc
    rw [natToCharsAux]
    by_cases h10 : n < 10
    · simp only [h10, if_true]
      obtain ⟨hd, hv⟩ := digitChar_spec n h10
      rw [List.singleton_append, parseDigits]
      simp [hd, hv]
    · simp only [h10, if_false]
      have hlt : n / 10 < f := by
        have h2 := Nat.div_lt_self (by omega : 0 < n) (by omega : 1 < 10)
        omega
      rw [List.append_assoc, List.singleton_append,
        ih (n / 10) hlt (digitChar (n % 10) :: rest) acc]
      obtain ⟨hd, hv⟩ := digitChar_spec (n % 10) (Nat.mod_lt n (by omega))
      rw [parseDigits]
      simp only [hd, if_true, hv]
      congr 1
      have hdm : n / 10 * 10 + n % 10 = n := by omega
      simp only [List.length_append, List.length_cons, List.length_nil]
      rw [Nat.add_mul, pow_succ]
      calc acc * 10 ^ (natToCharsAux f (n / 10)).length * 10 + n / 10 * 10 + n % 10
          = acc * (10 ^ (natToCharsAux f (n / 10)).length * 10) +
              (n / 10 * 10 + n % 10) := by ring
        _ = acc * (10 ^ (natToCharsAux f (n / 10)).length * 10) + n := by rw [hdm]

/-- The decimal rendering is never empty. -/
theorem natToCharsAux_ne_nil : ∀ fuel n, n < fuel → natToCharsAux fuel n ≠ [] := by
  intro fuel n h
  cases fuel with
  | zero => exact absurd h (Nat.not_lt_zero n)
  | succ f =>
    rw [natToCharsAux]
    by_cases h10 : n < 10 <;> simp [h10]

/-- The decimal rendering starts with a digit character. -/
theorem natToCharsAux_head_digit : ∀ fuel n, n < fuel → ∀ c cs,
    natToCharsAux fuel n = c :: cs → isDigitChar c = true := by
  intro fuel
  induction fuel with
  | zero => intro n h; exact absurd h (Nat.not_lt_zero n)
  | succ f ih =>
    intro n h c cs hcons
    rw [natToCharsAux] at hcons
    by_cases h10 : n < 10
    · simp only [h10, if_true] at hcons
      injection hcons with h1 h2
      subst h1
      exact (digitChar_spec n h10).1
    · simp only [h10, if_false] at hcons
      have hlt : n / 10 < f := by
        have h2 := Nat.div_lt_self (by omega : 0 < n) (by omega : 1 < 10)
        omega
      obtain ⟨a, as, ha⟩ :=
        List.exists_cons_of_ne_nil (natToCharsAux_ne_nil f (n / 10) hlt)
      rw [ha, List.cons_append] at hcons
      injection hcons with h1 h2
      subst h1
      exact ih (n / 10) hlt a as ha

/-- The number parser inverts the integer serializer when the continuation
does not begin with a digit. -/
theorem parseNumberToken_intToChars (i : Int) (rest : List Char)
    (h : headNotDigit rest) :
    parseNumberToken (intToChars i ++ rest) = .ok (i, rest) := by
  have hnn : i.natAbs < i.natAbs + 1 := Nat.lt_succ_self _
  obtain ⟨c, cs1, hcons⟩ : ∃ c cs1, natToChars i.natAbs = c :: cs1 := by
    cases hh : natToChars i.natAbs with
    | nil => exact absurd hh (natToCharsAux_ne_nil _ _ hnn)
    | cons c cs => exact ⟨c, cs, rfl⟩
  have hcd : isDigitChar c = true := natToCharsAux_head_digit _ _ hnn c cs1 hcons
  have hpd : parseDigits (natToChars i.natAbs ++ rest) 0 = (i.natAbs, rest) := by
    rw [natToChars, parseDigits_natToCharsAux (i.natAbs + 1) i.natAbs hnn rest 0,
      parseDigits_stop rest _ h]
    simp
  by_cases hi : i < 0
  · rw [intToChars]
    simp only [hi, if_true]
    rw [List.cons_append, hcons, List.cons_append]
    have hred : parseNumberToken ('-' :: c :: (cs1 ++ rest)) =
        if isDigitChar c then
          .ok (-((parseDigits (c :: (cs1 ++ rest)) 0).1 : Int),
            (parseDigits (c :: (cs1 ++ rest)) 0).2)
        else .error "Unexpected character in JSON number" := rfl
    rw [hred]
    simp only [hcd, if_true]
    rw [← List.cons_append, ← hcons, hpd]
    have hv : -((i.natAbs : Nat) : Int) = i := by omega
    show Except.ok (-((i.natAbs : Nat) : Int), rest) = Except.ok (i, rest)
    rw [hv]
  · rw [intToChars]
    simp only [hi, if_false]
    rw [hcons, List.cons_append]
    have hred : parseNumberToken (c :: (cs1 ++ rest)) =
        if isDigitChar c then
          .ok (((parseDigits (c :: (cs1 ++ rest)) 0).1 : Int),
            (parseDigits (c :: (cs1 ++ rest)) 0).2)
        else .error "Unexpected token in JSON" := by
      rw [parseNumberToken.eq_def]
      have hcn : c ≠ '-' := by
        intro hceq
        rw [hceq] at hcd
        exact absurd hcd (by decide)
      cases hc2 : c <;> simp_all
    rw [hred]
    simp only [hcd, if_true]
    rw [← List.cons_append, ← hcons, hpd]
    have hv : ((i.natAbs : Nat) : Int) = i := by omega
    show Except.ok (((i.natAbs : Nat) : Int), rest) = Except.ok (i, rest)
    rw [hv]

/-- skipWs drops a whitespace head. -/
theorem skipWs_cons_of_ws (c : Char) (cs : List Char) (h : isJsonWs c = true) :
    skipWs (c :: cs) = skipWs cs := by
  simp [skipWs, List.dropWhile, h]

/-- skipWs keeps a non-whitespace head. -/
theorem skipWs_cons_of_not_ws (c : Char) (cs : List Char)
    (h : isJsonWs c = false) : skipWs (c :: cs) = c :: cs := by
  simp [skipWs, List.dropWhile, h]

/-- skipWs drops an all-whitespace prefix. -/
theorem skipWs_drop_ws_front : ∀ (wsp : List Char),
    (∀ c ∈ wsp, isJsonWs c = true) → ∀ cs, skipWs (wsp ++ cs) = skipWs cs := by
  intro wsp
  induction wsp with
  | nil => intro _ cs; rfl
  | cons w ws ih =>
    intro h cs
    rw [List.cons_append, skipWs_cons_of_ws w _ (h w (by simp))]
    exact ih (fun c hc => h c (by simp [hc])) cs

/-- skipWs drops indentation. -/
theorem skipWs_pad (n : Nat) (cs : List Char) :
    skipWs (pad n ++ cs) = skipWs cs :=
  skipWs_drop_ws_front (pad n)
    (fun c hc => by
      have := List.eq_of_mem_replicate (by simpa [pad] using hc)
      subst this
      decide) cs

/-- The value parser ignores an all-whitespace prefix. -/
theorem parseValueF_drop_ws_front (fuel : Nat) (wsp cs : List Char)
    (h : ∀ c ∈ wsp, isJsonWs c = true) :
    parseValueF fuel (wsp ++ cs) = parseValueF fuel cs := by
  cases fuel with
  | zero => rfl
  | succ f => rw [parseValueF, parseValueF, skipWs_drop_ws_front wsp h cs]

/-- Digit characters are not JSON whitespace. -/
theorem isDigitChar_not_ws (c : Char) (h : isDigitChar c = true) :
    isJsonWs c = false := by
  simp only [isJsonWs, Bool.or_eq_false_iff, decide_eq_false_iff_not]
  refine ⟨⟨⟨?_, ?_⟩, ?_⟩, ?_⟩ <;> rintro rfl <;> exact absurd h (by decide)

/-- A digit character differs from any fixed non-digit character. -/
theorem isDigitChar_ne (c other : Char) (h : isDigitChar c = true)
    (hother : isDigitChar other = false) : c ≠ other := by
  rintro rfl
  rw [h] at hother
  exact Bool.noConfusion hother

/-- Serialized values start with a non-whitespace character that is neither
a closing bracket nor a closing brace. -/
theorem stringify_head (v : JsonValue) (indent : Nat) : ∃ c cs,
    jsonStringifyAux v indent = c :: cs ∧ isJsonWs c = false ∧
      c ≠ ']' ∧ c ≠ '}' := by
  match v with
  | .null => exact ⟨'n', _, rfl, by decide, by decide, by decide⟩
  | .bool true => exact ⟨'t', _, rfl, by decide, by decide, by decide⟩
  | .bool false => exact ⟨'f', _, rfl, by decide, by decide, by decide⟩
  | .str s => exact ⟨'"', _, rfl, by decide, by decide, by decide⟩
  | .num n =>
    rw [jsonStringifyAux, intToChars]
    by_cases hn : n < 0
    · simp only [hn, if_true]
      exact ⟨'-', _, rfl, by decide, by decide, by decide⟩
    · simp only [hn, if_false]
      have hnn : n.natAbs < n.natAbs + 1 := Nat.lt_succ_self _
      obtain ⟨c, cs1, hcons⟩ : ∃ c cs1, natToChars n.natAbs = c :: cs1 := by
        cases hh : natToChars n.natAbs with
        | nil => exact absurd hh (natToCharsAux_ne_nil _ _ hnn)
        | cons c cs => exact ⟨c, cs, rfl⟩
      have hcd : isDigitChar c = true :=
        natToCharsAux_head_digit _ _ hnn c cs1 hcons
      exact ⟨c, cs1, hcons, isDigitChar_not_ws c hcd,
        isDigitChar_ne c ']' hcd (by decide), isDigitChar_ne c '}' hcd (by decide)⟩
  | .arr vs =>
    rw [jsonStringifyAux.eq_def]
    by_cases he : vs.isEmpty <;> simp only [he, if_true, if_false] <;>
      exact ⟨'[', _, rfl, by decide, by decide, by decide⟩
  | .obj ms =>
    rw [jsonStringifyAux.eq_def]
    by_cases he : ms.isEmpty <;> simp only [he, if_true, if_false] <;>
      exact ⟨'{', _, rfl, by decide, by decide, by decide⟩

/-- One reduction step of the string-body parser after a backslash. -/
theorem parseStringBody_backslash : ∀ (e : Char) (t a : List Char),
    parseStringBody ('\\' :: e :: t) a =
      (if e = '"' then parseStringBody t ('"' :: a)
       else if e = '\\' then parseStringBody t ('\\' :: a)
       else if e = '/' then parseStringBody t ('/' :: a)
       else if e = 'b' then parseStringBody t ('\x08' :: a)
       else if e = 'f' then parseStringBody t ('\x0c' :: a)
       else if e = 'n' then parseStringBody t ('\n' :: a)
       else if e = 'r' then parseStringBody t ('\x0d' :: a)
       else if e = 't' then parseStringBody t ('\t' :: a)
       else if e = 'u' then
         (match t with
          | h1 :: h2 :: h3 :: h4 :: r2 =>
            (match hexVal h1, hexVal h2, hexVal h3, hexVal h4 with
             | some a1, some b, some c2, some d =>
               parseStringBody r2
                 (Char.ofNat (((a1 * 16 + b) * 16 + c2) * 16 + d) :: a)
             | _, _, _, _ => .error "Bad Unicode escape in JSON string")
          | _ => .error "Unexpected end of JSON input")
       else .error "Bad escaped character in JSON string") := by
  intro e t a
  rw [parseStringBody.eq_def]
  simp only [Char.reduceEq, reduceIte]

/-- One reduction step of the string-body parser on a plain character. -/
theorem parseStringBody_plain (c : Char) (t a : List Char) (h1 : c ≠ '"')
    (h2 : c ≠ '\\') :
    parseStringBody (c :: t) a = parseStringBody t (c :: a) := by
  rw [parseStringBody.eq_def]
  simp only [h1, h2, if_false, reduceIte]

/-- The string-body parser inverts the serializer's escaping: reading the
escaped body up to the closing quote recovers the original characters. -/
theorem escapeChars_parse : ∀ (cs acc rest : List Char),
    parseStringBody (escapeChars cs ++ '"' :: rest) acc =
      .ok (String.mk (acc.reverse ++ cs), rest) := by
  intro cs
  induction cs with
  | nil =>
    intro acc rest
    rw [escapeChars, List.nil_append, parseStringBody.eq_def]
    simp only [Char.reduceEq, reduceIte]
    simp
  | cons c cs ih =>
    intro acc rest
    rw [escapeChars, List.append_assoc, escapeChar]
    by_cases h1 : c = '"'
    · subst h1
      simp only [Char.reduceEq, reduceIte, List.cons_append, List.nil_append]
      rw [parseStringBody_backslash]
      simp only [Char.reduceEq, reduceIte]
      rw [ih]
      simp
    · by_cases h2 : c = '\\'
      · subst h2
        simp only [Char.reduceEq, reduceIte, List.cons_append, List.nil_append]
        rw [parseStringBody_backslash]
        simp only [Char.reduceEq, reduceIte]
        rw [ih]
        simp
      · by_cases h3 : c = '\x08'
        · subst h3
          simp only [Char.reduceEq, reduceIte, List.cons_append, List.nil_append]
          rw [parseStringBody_backslash]
          simp only [Char.reduceEq, reduceIte]
          rw [ih]
          simp
        · by_cases h4 : c = '\t'
          · subst h4
            simp only [Char.reduceEq, reduceIte, List.cons_append, List.nil_append]
            rw [parseStringBody_backslash]
            simp only [Char.reduceEq, reduceIte]
            rw [ih]
            simp
          · by_cases h5 : c = '\n'
            · subst h5
              simp only [Char.reduceEq, reduceIte, List.cons_append,
                List.nil_append]
              rw [parseStringBody_backslash]
              simp only [Char.reduceEq, reduceIte]
              rw [ih]
              simp
            · by_cases h6 : c = '\x0c'
              · subst h6
                simp only [Char.reduceEq, reduceIte, List.cons_append,
                  List.nil_append]
                rw [parseStringBody_backslash]
                simp only [Char.reduceEq, reduceIte]
                rw [ih]
                simp
              · by_cases h7 : c = '\x0d'
                · subst h7
                  simp only [Char.reduceEq, reduceIte, List.cons_append,
                    List.nil_append]
                  rw [parseStringBody_backslash]
                  simp only [Char.reduceEq, reduceIte]
                  rw [ih]
                  simp
                · by_cases h8 : c.toNat < 32
                  · simp only [h1, h2, h3, h4, h5, h6, h7, if_false, h8,
                      if_true, reduceIte, List.cons_append, List.nil_append]
                    rw [parseStringBody_backslash]
                    simp only [Char.reduceEq, reduceIte]
                    rw [show hexVal '0' = some 0 from rfl,
                      hexVal_hexDigitChar (c.toNat / 16) (by omega),
                      hexVal_hexDigitChar (c.toNat % 16) (by omega)]
                    simp only []
                    rw [show ((0 * 16 + 0) * 16 + c.toNat / 16) * 16 +
                        c.toNat % 16 = c.toNat from by omega,
                      Char.ofNat_toNat, ih]
                    simp
                  · simp only [h1, h2, h3, h4, h5, h6, h7, h8, if_false,
                      List.cons_append, List.nil_append]
                    rw [parseStringBody_plain c _ _ h1 h2, ih]
                    simp


theorem parseValueF_succ_cons (f : Nat) (c : Char) (r : List Char)
    (h : isJsonWs c = false) :
    parseValueF (f + 1) (c :: r) =
      (if c = 'n' then
        match r with
        | 'u' :: 'l' :: 'l' :: rr => .ok (.null, rr)
        | _ => .error "Unexpected token in JSON"
      else if c = 't' then
        match r with
        | 'r' :: 'u' :: 'e' :: rr => .ok (.bool true, rr)
        | _ => .error "Unexpected token in JSON"
      else if c = 'f' then
        match r with
        | 'a' :: 'l' :: 's' :: 'e' :: rr => .ok (.bool false, rr)
        | _ => .error "Unexpected token in JSON"
      else if c = '"' then
        match parseStringBody r [] with
        | .ok (s, rr) => .ok (.str s, rr)
        | .error m => .error m
      else if c = '[' then
        match skipWs r with
        | ']' :: rr => .ok (.arr [], rr)
        | rest2 =>
          match parseValueF f rest2 with
          | .ok (v, rr) => parseArrayTail f [v] rr
          | .error m => .error m
      else if c = '{' then
        match skipWs r with
        | '}' :: rr => .ok (.obj [], rr)
        | rest2 => parseObjectMember f [] rest2
      else if c = '-' || isDigitChar c then
        match parseNumberToken (c :: r) with
        | .ok (n, rr) => .ok (.num n, rr)
        | .error m => .error m
      else .error "Unexpected token in JSON") := by
  rw [parseValueF, skipWs_cons_of_not_ws c r h]

theorem parseArrayTail_succ_cons (f : Nat) (acc : List JsonValue) (c : Char)
    (r : List Char) (h : isJsonWs c = false) :
    parseArrayTail (f + 1) acc (c :: r) =
      (if c = ']' then .ok (.arr acc, r)
       else if c = ',' then
         match parseValueF f r with
         | .ok (v, r2) => parseArrayTail f (acc ++ [v]) r2
         | .error m => .error m
       else .error "Expected comma or closing bracket in JSON array") := by
  rw [parseArrayTail, skipWs_cons_of_not_ws c r h]
  by_cases hb : c = ']'
  · subst hb; simp
  · by_cases hc : c = ','
    · subst hc; simp
    · simp [hb, hc]

theorem parseObjectMember_succ_cons (f : Nat)
    (acc : List (String × JsonValue)) (c : Char) (r : List Char)
    (h : isJsonWs c = false) :
    parseObjectMember (f + 1) acc (c :: r) =
      (if c = '"' then
        match parseStringBody r [] with
        | .ok (k, r2) =>
          (match skipWs r2 with
           | ':' :: r3 =>
             (match parseValueF f r3 with
              | .ok (v, r4) => parseObjectTail f (acc ++ [(k, v)]) r4
              | .error m => .error m)
           | _ => .error "Expected colon in JSON object")
        | .error m => .error m
       else .error "Expected property name in JSON object") := by
  rw [parseObjectMember, skipWs_cons_of_not_ws c r h]
  by_cases hq : c = '"'
  · subst hq; simp
  · simp [hq]

theorem parseObjectTail_succ_cons (f : Nat)
    (acc : List (String × JsonValue)) (c : Char) (r : List Char)
    (h : isJsonWs c = false) :
    parseObjectTail (f + 1) acc (c :: r) =
      (if c = '}' then .ok (.obj acc, r)
       else if c = ',' then parseObjectMember f acc r
       else .error "Expected comma or closing brace in JSON object") := by
  rw [parseObjectTail, skipWs_cons_of_not_ws c r h]
  by_cases hb : c = '}'
  · subst hb; simp
  · by_cases hc : c = ','
    · subst hc; simp
    · simp [hb, hc]

theorem parseArrayTail_drop_ws_front (fuel : Nat) (acc : List JsonValue)
    (wsp cs : List Char) (h : ∀ c ∈ wsp, isJsonWs c = true) :
    parseArrayTail fuel acc (wsp ++ cs) = parseArrayTail fuel acc cs := by
  cases fuel with
  | zero => rfl
  | succ f => rw [parseArrayTail, parseArrayTail, skipWs_drop_ws_front wsp h cs]

theorem parseObjectMember_drop_ws_front (fuel : Nat)
    (acc : List (String × JsonValue)) (wsp cs : List Char)
    (h : ∀ c ∈ wsp, isJsonWs c = true) :
    parseObjectMember fuel acc (wsp ++ cs) = parseObjectMember fuel acc cs := by
  cases fuel with
  | zero => rfl
  | succ f => rw [parseObjectMember, parseObjectMember, skipWs_drop_ws_front wsp h cs]

theorem parseObjectTail_drop_ws_front (fuel : Nat)
    (acc : List (String × JsonValue)) (wsp cs : List Char)
    (h : ∀ c ∈ wsp, isJsonWs c = true) :
    parseObjectTail fuel acc (wsp ++ cs) = parseObjectTail fuel acc cs := by
  cases fuel with
  | zero => rfl
  | succ f => rw [parseObjectTail, parseObjectTail, skipWs_drop_ws_front wsp h cs]

theorem arrItemsChars_decomp (v : JsonValue) (vs : List JsonValue) (i : Nat) :
    arrItemsChars (v :: vs) i =
      pad i ++ (jsonStringifyAux v i ++ arrSep vs i) := by
  cases vs with
  | nil => rw [arrItemsChars, arrSep]; simp
  | cons v2 rest => rw [arrItemsChars, arrSep]; simp

theorem objItemsChars_decomp (k : String) (v : JsonValue)
    (ms : List (String × JsonValue)) (i : Nat) :
    objItemsChars ((k, v) :: ms) i =
      pad i ++ (quoteString k ++ ':' :: ' ' ::
        (jsonStringifyAux v i ++ objSep ms i)) := by
  cases ms with
  | nil => rw [objItemsChars, objSep]; simp
  | cons m2 rest => rw [objItemsChars, objSep]; simp

theorem headNotDigit_arrSep (vs : List JsonValue) (i : Nat) (tail : List Char) :
    headNotDigit (arrSep vs i ++ '\n' :: tail) := by
  cases vs with
  | nil => rw [arrSep]; exact (by decide : isDigitChar '\n' = false)
  | cons v rest => rw [arrSep]; exact (by decide : isDigitChar ',' = false)

theorem headNotDigit_objSep (ms : List (String × JsonValue)) (i : Nat)
    (tail : List Char) :
    headNotDigit (objSep ms i ++ '\n' :: tail) := by
  cases ms with
  | nil => rw [objSep]; exact (by decide : isDigitChar '\n' = false)
  | cons m rest => rw [objSep]; exact (by decide : isDigitChar ',' = false)


theorem pad_length (n : Nat) : (pad n).length = n := by simp [pad]

theorem ws_nl_pad (i : Nat) : ∀ c ∈ '\n' :: pad i, isJsonWs c = true := by
  intro c hc
  rcases List.mem_cons.mp hc with rfl | hp
  · decide
  · have := List.eq_of_mem_replicate (by simpa [pad] using hp)
    subst this
    decide

theorem intToChars_head (n : Int) : ∃ c cs, intToChars n = c :: cs ∧
    (c = '-' ∨ isDigitChar c = true) := by
  rw [intToChars]
  by_cases hn : n < 0
  · simp only [hn, if_true]
    exact ⟨'-', _, rfl, Or.inl rfl⟩
  · simp only [hn, if_false]
    have hnn : n.natAbs < n.natAbs + 1 := Nat.lt_succ_self _
    obtain ⟨c, cs1, hcons⟩ : ∃ c cs1, natToChars n.natAbs = c :: cs1 := by
      cases hh : natToChars n.natAbs with
      | nil => exact absurd hh (natToCharsAux_ne_nil _ _ hnn)
      | cons c cs => exact ⟨c, cs, rfl⟩
    exact ⟨c, cs1, hcons, Or.inr (natToCharsAux_head_digit _ _ hnn c cs1 hcons)⟩

mutual

theorem parse_jsonStringifyAux : ∀ (v : JsonValue) (indent : Nat)
    (rest : List Char) (fuel : Nat),
    (jsonStringifyAux v indent ++ rest).length + 1 ≤ fuel →
    headNotDigit rest →
    parseValueF fuel (jsonStringifyAux v indent ++ rest) = .ok (v, rest)
  | .null, indent, rest, fuel, hfuel, hrest => by
    obtain ⟨f, rfl⟩ : ∃ f, fuel = f + 1 := ⟨fuel - 1, by omega⟩
    rw [jsonStringifyAux,
      show (['n', 'u', 'l', 'l'] : List Char) ++ rest =
        'n' :: ('u' :: 'l' :: 'l' :: rest) from rfl,
      parseValueF_succ_cons f 'n' _ (by decide)]
    rfl
  | .bool true, indent, rest, fuel, hfuel, hrest => by
    obtain ⟨f, rfl⟩ : ∃ f, fuel = f + 1 := ⟨fuel - 1, by omega⟩
    rw [jsonStringifyAux,
      show (['t', 'r', 'u', 'e'] : List Char) ++ rest =
        't' :: ('r' :: 'u' :: 'e' :: rest) from rfl,
      parseValueF_succ_cons f 't' _ (by decide)]
    rfl
  | .bool false, indent, rest, fuel, hfuel, hrest => by
    obtain ⟨f, rfl⟩ : ∃ f, fuel = f + 1 := ⟨fuel - 1, by omega⟩
    rw [jsonStringifyAux,
      show (['f', 'a', 'l', 's', 'e'] : List Char) ++ rest =
        'f' :: ('a' :: 'l' :: 's' :: 'e' :: rest) from rfl,
      parseValueF_succ_cons f 'f' _ (by decide)]
    rfl
  | .num n, indent, rest, fuel, hfuel, hrest => by
    obtain ⟨f, rfl⟩ : ∃ f, fuel = f + 1 := ⟨fuel - 1, by omega⟩
    rw [jsonStringifyAux]
    obtain ⟨c, cs0, hc, hdisp⟩ := intToChars_head n
    have hnws : isJsonWs c = false := by
      rcases hdisp with rfl | hd
      · decide
      · exact isDigitChar_not_ws c hd
    rw [hc, List.cons_append, parseValueF_succ_cons f c _ hnws]
    have hnum : (c = '-' || isDigitChar c) = true := by
      rcases hdisp with rfl | hd
      · simp
      · simp [hd]
    have h1 : ¬c = 'n' := by
      rcases hdisp with rfl | hd
      · decide
      · exact isDigitChar_ne c 'n' hd (by decide)
    have h2 : ¬c = 't' := by
      rcases hdisp with rfl | hd
      · decide
      · exact isDigitChar_ne c 't' hd (by decide)
    have h3 : ¬c = 'f' := by
      rcases hdisp with rfl | hd
      · decide
      · exact isDigitChar_ne c 'f' hd (by decide)
    have h4 : ¬c = '"' := by
      rcases hdisp with rfl | hd
      · decide
      · exact isDigitChar_ne c '"' hd (by decide)
    have h5 : ¬c = '[' := by
      rcases hdisp with rfl | hd
      · decide
      · exact isDigitChar_ne c '[' hd (by decide)
    have h6 : ¬c = '{' := by
      rcases hdisp with rfl | hd
      · decide
      · exact isDigitChar_ne c '{' hd (by decide)
    simp only [h1, h2, h3, h4, h5, h6, if_false, hnum, if_true, reduceIte]
    rw [← List.cons_append, ← hc, parseNumberToken_intToChars n rest hrest]
  | .str s, indent, rest, fuel, hfuel, hrest => by
    obtain ⟨f, rfl⟩ : ∃ f, fuel = f + 1 := ⟨fuel - 1, by omega⟩
    rw [jsonStringifyAux, quoteString, List.cons_append, List.append_assoc,
      List.singleton_append, parseValueF_succ_cons f '"' _ (by decide)]
    simp only [Char.reduceEq, reduceIte]
    rw [escapeChars_parse]
    simp
  | .arr [], indent, rest, fuel, hfuel, hrest => by
    obtain ⟨f, rfl⟩ : ∃ f, fuel = f + 1 := ⟨fuel - 1, by omega⟩
    rw [jsonStringifyAux]
    simp only [List.isEmpty_nil, if_true]
    rw [show (['[', ']'] : List Char) ++ rest = '[' :: (']' :: rest) from rfl,
      parseValueF_succ_cons f '[' _ (by decide)]
    simp only [Char.reduceEq, reduceIte]
    rw [skipWs_cons_of_not_ws ']' rest (by decide)]
    rfl
  | .arr (v :: vs), indent, rest, fuel, hfuel, hrest => by
    obtain ⟨f, rfl⟩ : ∃ f, fuel = f + 1 := ⟨fuel - 1, by omega⟩
    rw [jsonStringifyAux] at hfuel ⊢
    simp only [List.isEmpty_cons, if_false, Bool.false_eq_true] at hfuel ⊢
    rw [arrItemsChars_decomp] at hfuel ⊢
    simp only [List.cons_append, List.append_assoc, List.singleton_append,
      List.nil_append] at hfuel ⊢
    rw [parseValueF_succ_cons f '[' _ (by decide)]
    simp only [Char.reduceEq, reduceIte]
    rw [skipWs_cons_of_ws '\n' _ (by decide), skipWs_pad]
    obtain ⟨c0, cs0, hc0, hc0ws, hc0rb, hc0rc⟩ := stringify_head v (indent + 2)
    rw [hc0, List.cons_append, skipWs_cons_of_not_ws c0 _ hc0ws]
    simp only [List.length_append, List.length_cons, pad_length] at hfuel
    split
    · next r heq =>
      injection heq with hch
      exact absurd hch hc0rb
    · next =>
      rw [← List.cons_append, ← hc0,
        parse_jsonStringifyAux v (indent + 2)
          (arrSep vs (indent + 2) ++ '\n' :: (pad indent ++ ']' :: rest)) f
          (by
            simp only [List.length_append, List.length_cons, pad_length]
            omega)
          (headNotDigit_arrSep vs (indent + 2) _)]
      show parseArrayTail f [v]
          (arrSep vs (indent + 2) ++ '\n' :: (pad indent ++ ']' :: rest)) =
        Except.ok (JsonValue.arr (v :: vs), rest)
      rw [parse_arrTail_sep vs [v] indent rest f
        (by
          simp only [List.length_append, List.length_cons, pad_length]
          omega)]
      simp
  | .obj [], indent, rest, fuel, hfuel, hrest => by
    obtain ⟨f, rfl⟩ : ∃ f, fuel = f + 1 := ⟨fuel - 1, by omega⟩
    rw [jsonStringifyAux]
    simp only [List.isEmpty_nil, if_true]
    rw [show (['{', '}'] : List Char) ++ rest = '{' :: ('}' :: rest) from rfl,
      parseValueF_succ_cons f '{' _ (by decide)]
    simp only [Char.reduceEq, reduceIte]
    rw [skipWs_cons_of_not_ws '}' rest (by decide)]
    rfl
  | .obj ((k, v) :: ms), indent, rest, fuel, hfuel, hrest => by
    obtain ⟨f, rfl⟩ : ∃ f, fuel = f + 1 := ⟨fuel - 1, by omega⟩
    rw [jsonStringifyAux] at hfuel ⊢
    simp only [List.isEmpty_cons, if_false, Bool.false_eq_true] at hfuel ⊢
    rw [objItemsChars_decomp] at hfuel ⊢
    simp only [List.cons_append, List.append_assoc, List.singleton_append,
      List.nil_append] at hfuel ⊢
    rw [parseValueF_succ_cons f '{' _ (by decide)]
    simp only [Char.reduceEq, reduceIte]
    rw [skipWs_cons_of_ws '\n' _ (by decide), skipWs_pad, quoteString,
      List.cons_append, skipWs_cons_of_not_ws '"' _ (by decide)]
    simp only [List.length_append, List.length_cons, pad_length,
      quoteString] at hfuel
    split
    · next r heq =>
      injection heq with hch
      exact absurd hch (by decide)
    · next =>
      rw [← List.cons_append, ← quoteString]
      have hmem := parse_objMember_sep k v ms [] indent rest f
        (by
          simp only [List.length_append, List.length_cons, pad_length,
            quoteString]
          omega)
      rw [show quoteString k ++
          (':' :: ' ' :: (jsonStringifyAux v (indent + 2) ++
            (objSep ms (indent + 2) ++ '\n' :: (pad indent ++ '}' :: rest)))) =
          quoteString k ++ ':' :: ' ' ::
            (jsonStringifyAux v (indent + 2) ++
              (objSep ms (indent + 2) ++
                '\n' :: (pad indent ++ '}' :: rest))) from rfl]
      rw [hmem]
      simp
termination_by v i r f h1 h2 => sizeOf v
decreasing_by
  all_goals simp_wf
  all_goals (try simp only [JsonValue.arr.sizeOf_spec, JsonValue.obj.sizeOf_spec,
    List.cons.sizeOf_spec, Prod.mk.sizeOf_spec])
  all_goals omega

theorem parse_arrTail_sep : ∀ (vs : List JsonValue) (acc : List JsonValue)
    (indent : Nat) (rest : List Char) (fuel : Nat),
    (arrSep vs (indent + 2) ++
      '\n' :: (pad indent ++ ']' :: rest)).length + 1 ≤ fuel →
    parseArrayTail fuel acc (arrSep vs (indent + 2) ++
      '\n' :: (pad indent ++ ']' :: rest)) = .ok (.arr (acc ++ vs), rest)
  | [], acc, indent, rest, fuel, hfuel => by
    obtain ⟨g, rfl⟩ : ∃ g, fuel = g + 1 := ⟨fuel - 1, by omega⟩
    rw [arrSep, List.nil_append,
      show ('\n' :: (pad indent ++ ']' :: rest) : List Char) =
        ('\n' :: pad indent) ++ (']' :: rest) from by simp,
      parseArrayTail_drop_ws_front (g + 1) acc ('\n' :: pad indent) (']' :: rest)
        (ws_nl_pad indent),
      parseArrayTail_succ_cons g acc ']' rest (by decide)]
    simp
  | v :: vs2, acc, indent, rest, fuel, hfuel => by
    obtain ⟨g, rfl⟩ : ∃ g, fuel = g + 1 := ⟨fuel - 1, by omega⟩
    rw [arrSep] at hfuel ⊢
    rw [arrItemsChars_decomp] at hfuel ⊢
    simp only [List.cons_append, List.append_assoc, List.nil_append]
      at hfuel ⊢
    rw [parseArrayTail_succ_cons g acc ',' _ (by decide)]
    simp only [Char.reduceEq, reduceIte]
    rw [show ('\n' :: (pad (indent + 2) ++
        (jsonStringifyAux v (indent + 2) ++ (arrSep vs2 (indent + 2) ++
          '\n' :: (pad indent ++ ']' :: rest)))) : List Char) =
        ('\n' :: pad (indent + 2)) ++
          (jsonStringifyAux v (indent + 2) ++ (arrSep vs2 (indent + 2) ++
            '\n' :: (pad indent ++ ']' :: rest))) from by simp,
      parseValueF_drop_ws_front g ('\n' :: pad (indent + 2)) _
        (ws_nl_pad (indent + 2))]
    simp only [List.length_append, List.length_cons, pad_length] at hfuel
    rw [parse_jsonStringifyAux v (indent + 2)
      (arrSep vs2 (indent + 2) ++ '\n' :: (pad indent ++ ']' :: rest)) g
      (by
        simp only [List.length_append, List.length_cons, pad_length]
        omega)
      (headNotDigit_arrSep vs2 (indent + 2) _)]
    show parseArrayTail g (acc ++ [v])
        (arrSep vs2 (indent + 2) ++ '\n' :: (pad indent ++ ']' :: rest)) =
      Except.ok (JsonValue.arr (acc ++ v :: vs2), rest)
    rw [parse_arrTail_sep vs2 (acc ++ [v]) indent rest g
      (by
        simp only [List.length_append, List.length_cons, pad_length]
        omega)]
    simp
termination_by vs a i r f h => sizeOf vs
decreasing_by
  all_goals simp_wf
  all_goals (try simp only [JsonValue.arr.sizeOf_spec, JsonValue.obj.sizeOf_spec,
    List.cons.sizeOf_spec, Prod.mk.sizeOf_spec])
  all_goals omega

theorem parse_objMember_sep (k : String) (v : JsonValue)
    (ms : List (String × JsonValue)) (acc : List (String × JsonValue))
    (indent : Nat) (rest : List Char) (fuel : Nat)
    (hfuel : (quoteString k ++ ':' :: ' ' ::
      (jsonStringifyAux v (indent + 2) ++ (objSep ms (indent + 2) ++
        '\n' :: (pad indent ++ '}' :: rest)))).length + 1 ≤ fuel) :
    parseObjectMember fuel acc (quoteString k ++ ':' :: ' ' ::
      (jsonStringifyAux v (indent + 2) ++ (objSep ms (indent + 2) ++
        '\n' :: (pad indent ++ '}' :: rest)))) =
      .ok (.obj (acc ++ (k, v) :: ms), rest) := by
  obtain ⟨g, rfl⟩ : ∃ g, fuel = g + 1 := ⟨fuel - 1, by omega⟩
  rw [quoteString] at hfuel ⊢
  simp only [List.cons_append, List.append_assoc, List.singleton_append,
    List.nil_append] at hfuel ⊢
  rw [parseObjectMember_succ_cons g acc '"' _ (by decide)]
  simp only [Char.reduceEq, reduceIte]
  rw [escapeChars_parse]
  simp only [List.reverse_nil, List.nil_append]
  rw [skipWs_cons_of_not_ws ':' _ (by decide)]
  simp only [List.length_append, List.length_cons, List.length_nil,
    pad_length] at hfuel
  rw [show (' ' :: (jsonStringifyAux v (indent + 2) ++
      (objSep ms (indent + 2) ++ '\n' :: (pad indent ++ '}' :: rest)))
        : List Char) =
      [' '] ++ (jsonStringifyAux v (indent + 2) ++
        (objSep ms (indent + 2) ++ '\n' :: (pad indent ++ '}' :: rest)))
      from by simp]
  show (match parseValueF g ([' '] ++ (jsonStringifyAux v (indent + 2) ++
      (objSep ms (indent + 2) ++ '\n' :: (pad indent ++ '}' :: rest)))) with
    | Except.ok (v2, r4) =>
      parseObjectTail g (acc ++ [(String.mk k.data, v2)]) r4
    | Except.error m => Except.error m) =
    Except.ok (JsonValue.obj (acc ++ (k, v) :: ms), rest)
  rw [parseValueF_drop_ws_front g [' '] _
    (by intro c hc; simp at hc; subst hc; decide)]
  rw [parse_jsonStringifyAux v (indent + 2)
    (objSep ms (indent + 2) ++ '\n' :: (pad indent ++ '}' :: rest)) g
    (by
      simp only [List.length_append, List.length_cons, pad_length]
      omega)
    (headNotDigit_objSep ms (indent + 2) _)]
  show parseObjectTail g (acc ++ [(String.mk k.data, v)])
      (objSep ms (indent + 2) ++ '\n' :: (pad indent ++ '}' :: rest)) =
    Except.ok (JsonValue.obj (acc ++ (k, v) :: ms), rest)
  rw [parse_objTail_sep ms (acc ++ [(String.mk k.data, v)]) indent rest g
    (by
      simp only [List.length_append, List.length_cons, pad_length]
      omega)]
  simp
termination_by 1 + sizeOf v + sizeOf ms
decreasing_by
  all_goals simp_wf
  all_goals (try simp only [JsonValue.arr.sizeOf_spec, JsonValue.obj.sizeOf_spec,
    List.cons.sizeOf_spec, Prod.mk.sizeOf_spec])
  all_goals omega

theorem parse_objTail_sep : ∀ (ms : List (String × JsonValue))
    (acc : List (String × JsonValue)) (indent : Nat) (rest : List Char)
    (fuel : Nat),
    (objSep ms (indent + 2) ++
      '\n' :: (pad indent ++ '}' :: rest)).length + 1 ≤ fuel →
    parseObjectTail fuel acc (objSep ms (indent + 2) ++
      '\n' :: (pad indent ++ '}' :: rest)) = .ok (.obj (acc ++ ms), rest)
  | [], acc, indent, rest, fuel, hfuel => by
    obtain ⟨g, rfl⟩ : ∃ g, fuel = g + 1 := ⟨fuel - 1, by omega⟩
    rw [objSep, List.nil_append,
      show ('\n' :: (pad indent ++ '}' :: rest) : List Char) =
        ('\n' :: pad indent) ++ ('}' :: rest) from by simp,
      parseObjectTail_drop_ws_front (g + 1) acc ('\n' :: pad indent) ('}' :: rest)
        (ws_nl_pad indent),
      parseObjectTail_succ_cons g acc '}' rest (by decide)]
    simp
  | (k, v) :: ms2, acc, indent, rest, fuel, hfuel => by
    obtain ⟨g, rfl⟩ : ∃ g, fuel = g + 1 := ⟨fuel - 1, by omega⟩
    rw [objSep] at hfuel ⊢
    rw [objItemsChars_decomp] at hfuel ⊢
    simp only [List.cons_append, List.append_assoc, List.nil_append]
      at hfuel ⊢
    rw [parseObjectTail_succ_cons g acc ',' _ (by decide)]
    simp only [Char.reduceEq, reduceIte]
    rw [show ('\n' :: (pad (indent + 2) ++
        (quoteString k ++ ':' :: ' ' ::
          (jsonStringifyAux v (indent + 2) ++ (objSep ms2 (indent + 2) ++
            '\n' :: (pad indent ++ '}' :: rest))))) : List Char) =
        ('\n' :: pad (indent + 2)) ++
          (quoteString k ++ ':' :: ' ' ::
            (jsonStringifyAux v (indent + 2) ++ (objSep ms2 (indent + 2) ++
              '\n' :: (pad indent ++ '}' :: rest)))) from by simp,
      parseObjectMember_drop_ws_front g acc ('\n' :: pad (indent + 2)) _
        (ws_nl_pad (indent + 2))]
    simp only [List.length_append, List.length_cons, pad_length] at hfuel
    rw [parse_objMember_sep k v ms2 acc indent rest g
      (by
        simp only [List.length_append, List.length_cons, pad_length]
        omega)]
termination_by ms a i r f h => sizeOf ms
decreasing_by
  all_goals simp_wf
  all_goals (try simp only [JsonValue.arr.sizeOf_spec, JsonValue.obj.sizeOf_spec,
    List.cons.sizeOf_spec, Prod.mk.sizeOf_spec])
  all_goals omega

end


theorem parseJson_stringify (v : JsonValue) :
    parseJson (jsonStringify2 v) = .ok v := by
  rw [parseJson]
  have hdata : (jsonStringify2 v).data = jsonStringifyAux v 0 := rfl
  have hlen : (jsonStringify2 v).length = (jsonStringifyAux v 0).length := rfl
  rw [hdata, hlen]
  have hp := parse_jsonStringifyAux v 0 [] ((jsonStringifyAux v 0).length + 1)
    (by simp) (by rw [headNotDigit]; trivial)
  rw [List.append_nil] at hp
  rw [hp]
  rfl

theorem C6_copy_roundtrip :
    (∀ s : String, handleCopyText (.str s) = s) ∧
    (∀ v : JsonValue, getDataType v ≠ DataType.STRING →
      handleCopyText v = jsonStringify2 v ∧
      safeJsonParse (handleCopyText v) = ⟨some v, none⟩) := by
  refine ⟨fun s => rfl, fun v hv => ?_⟩
  have h1 : handleCopyText v = jsonStringify2 v := by
    rw [handleCopyText, if_neg hv]
    exact fun s hs => hv (by rw [hs]; rfl)
  refine ⟨h1, ?_⟩
  rw [h1, safeJsonParse, parseJson_stringify v]

theorem C6_copy_roundtrip_witness :
    handleCopyText (.str "hello") = "hello" ∧
    safeJsonParse (handleCopyText (.arr [.num 1, .num 2])) =
      ⟨some (.arr [.num 1, .num 2]), none⟩ :=
  ⟨C6_copy_roundtrip.1 "hello",
    (C6_copy_roundtrip.2 (.arr [.num 1, .num 2]) (by decide)).2⟩


end JsonDeepDive
